import Mathlib

/-!
# Katib file metrics collector: early-stopping loop and observation store

A shallow embedding of

* `cmd/metricscollector/v1beta1/file-metricscollector/main.go`
  (`stopRulesFlag.Set`, `watchMetricsFile`, `deleteStopRule`, the end of `main`), and
* `pkg/db/v1beta1/mysql/mysql.go` (`RegisterObservationLog`).

Go slices are lists, the `metricStartStep` map is a function into `Option`,
`int` is `Int` with explicit 64-bit wrap-around, a run-time panic is `none`.
Calls that leave the repository (regular expressions, `strconv.ParseFloat`,
time parsing, the database) are parameters of the model. The goroutine of
`watchMetricsFile` and the function `main` are interleaved statement by statement.
-/

namespace Katib

/-! ## float64 values -/

/-- A float64 value, as far as `==`, `<` and `>` can tell values apart: NaN, the
two infinities, or the finite value `m * 2^(-1074)`. Every finite float64 is
such a multiple; `+0` and `-0` are both `fin 0`. -/
inductive F64 where
  | nan : F64
  | negInf : F64
  | fin (m : Int) : F64
  | posInf : F64
  deriving DecidableEq, Repr

/-- Go `a < b` on float64. -/
def F64.lt : F64 → F64 → Bool
  | .nan, _ => false
  | _, .nan => false
  | .negInf, .negInf => false
  | .negInf, _ => true
  | .fin _, .negInf => false
  | .fin a, .fin b => decide (a < b)
  | .fin _, .posInf => true
  | .posInf, _ => false

/-- Go `a > b` on float64. -/
def F64.gt (a b : F64) : Bool := F64.lt b a

/-- Go `a == b` on float64 (NaN is equal to nothing). -/
def F64.eq : F64 → F64 → Bool
  | .nan, _ => false
  | _, .nan => false
  | a, b => decide (a = b)

/-- The float64 with value `m * 2^(-e)`, for `e ≤ 1074`. -/
def F64.dyadic (m : Int) (e : Nat) : F64 := .fin (m * Int.ofNat (1 <<< (1074 - e)))

/-! ## Go helpers -/

/-- Go `int` arithmetic wraps around at 64 bits. -/
def wrapInt64 (x : Int) : Int :=
  (x + 9223372036854775808) % 18446744073709551616 - 9223372036854775808

/-- Go `unicode.IsSpace`. -/
def isSpace (c : Char) : Bool :=
  let n := c.toNat
  n = 9 || n = 10 || n = 11 || n = 12 || n = 13 || n = 32 || n = 0x85 || n = 0xA0 ||
  n = 0x1680 || (0x2000 ≤ n && n ≤ 0x200a) || n = 0x2028 || n = 0x2029 || n = 0x202f ||
  n = 0x205f || n = 0x3000

/-- Go `strings.TrimSpace`. -/
def trimSpace (s : String) : String :=
  String.mk ((s.data.dropWhile isSpace).reverse.dropWhile isSpace).reverse

/-- Go `strings.Contains`. -/
def stringsContains (s substr : String) : Bool := decide (substr.data <:+: s.data)

/-- Go `strings.Split(s, ";")` on the characters of `s`. -/
def splitSemi : List Char → List (List Char)
  | [] => [[]]
  | c :: cs =>
    if c = ';' then [] :: splitSemi cs
    else
      match splitSemi cs with
      | [] => [[c]]
      | f :: fs => (c :: f) :: fs

/-- Go `strings.Split(value, ";")`. -/
def stringsSplit (value : String) : List String := (splitSemi value.data).map String.mk

/-- Value of a run of decimal digits, `none` when some character is not a digit. -/
def digitsValue : List Char → Nat → Option Nat
  | [], acc => some acc
  | c :: cs, acc =>
    if c.isDigit then digitsValue cs (acc * 10 + (c.toNat - 48)) else none

/-- The outcome of Go `strconv.ParseUint`: a value, a syntax error, or a range error. -/
inductive NumResult where
  | ok (n : Nat)
  | syntaxErr
  | rangeErr
  deriving DecidableEq, Repr

/-- The loop of Go `strconv.ParseUint(s, 10, 64)` from the value `n` on: a character
that is not a digit is a syntax error, found when the loop comes to it; before that,
a digit at which `n * 10` or `n * 10 + d` leaves the range of `uint64` ends the loop
with a range error, and the rest of the string is not read. -/
def parseUintLoop : List Char → Nat → NumResult
  | [], n => .ok n
  | c :: cs, n =>
    if ¬ c.isDigit then .syntaxErr
    else if n ≥ 1844674407370955162 then .rangeErr
    else if n * 10 + (c.toNat - 48) > 18446744073709551615 then .rangeErr
    else parseUintLoop cs (n * 10 + (c.toNat - 48))

/-- The string without its leading sign `+` or `-`, if it has one. -/
def unsignedPart (cs : List Char) : List Char :=
  if cs.head? = some '-' ∨ cs.head? = some '+' then cs.tail else cs

/-- Go `strconv.ParseInt(s, 10, 0)` on a 64-bit platform: the value and whether an
error is returned. A syntax error comes with 0, a range error with the bound of `int`
on the side of the sign. -/
def parseInt (cs : List Char) : Int × Bool :=
  if cs = [] then (0, true)
  else if unsignedPart cs = [] then (0, true)
  else
    match parseUintLoop (unsignedPart cs) 0 with
    | .syntaxErr => (0, true)
    | .rangeErr =>
      if cs.head? = some '-' then (-9223372036854775808, true) else (9223372036854775807, true)
    | .ok un =>
      if cs.head? ≠ some '-' ∧ un ≥ 9223372036854775808 then (9223372036854775807, true)
      else if cs.head? = some '-' ∧ un > 9223372036854775808 then (-9223372036854775808, true)
      else if cs.head? = some '-' then (-(un : Int), false)
      else ((un : Int), false)

/-- The fast path of Go `strconv.Atoi` for a string of 1 to 18 bytes: no range check
is needed. -/
def atoiFast (cs : List Char) : Int × Bool :=
  if unsignedPart cs = [] then (0, true)
  else
    match digitsValue (unsignedPart cs) 0 with
    | none => (0, true)
    | some n => if cs.head? = some '-' then (-(n : Int), false) else ((n : Int), false)

/-- Go `strconv.Atoi` on a 64-bit platform: the value and whether an error is
returned. Strings of 1 to 18 bytes take the fast path, the others go through
`ParseInt`. -/
def strconvAtoi (s : String) : Int × Bool :=
  if 0 < s.utf8ByteSize ∧ s.utf8ByteSize < 19 then atoiFast s.data else parseInt s.data

/-! ## Early stopping rules -/

/-- `commonv1beta1.EarlyStoppingRule`; `ComparisonType` is a string type. -/
structure EarlyStoppingRule where
  Name : String
  Value : String
  Comparison : String
  StartStep : Int
  deriving DecidableEq, Repr

/-- The zero value `commonv1beta1.EarlyStoppingRule{}`. -/
def EarlyStoppingRule.zero : EarlyStoppingRule := ⟨"", "", "", 0⟩

/-- Modelled from the spec: the constant `commonv1beta1.ComparisonTypeEqual`, declared
outside the source files at hand (comparison `Equal`). -/
def ComparisonTypeEqual : String := "equal"

/-- Modelled from the spec: the constant `commonv1beta1.ComparisonTypeLess`, declared
outside the source files at hand (comparison `Less`). -/
def ComparisonTypeLess : String := "less"

/-- Modelled from the spec: the constant `commonv1beta1.ComparisonTypeGreater`, declared
outside the source files at hand (comparison `Greater`). -/
def ComparisonTypeGreater : String := "greater"

/-- Modelled from the spec: the constant `commonv1beta1.ObjectiveTypeMaximize`, declared
outside the source files at hand (direction `Maximize`). -/
def ObjectiveTypeMaximize : String := "maximize"

/-- Modelled from the spec: the constant `commonv1beta1.ObjectiveTypeMinimize`, declared
outside the source files at hand (direction `Minimize`). -/
def ObjectiveTypeMinimize : String := "minimize"

/-- The type `stopRulesFlag`. -/
abbrev stopRulesFlag := List EarlyStoppingRule

/-- The method `(*stopRulesFlag).Set`: the contents of the flag after the call and
whether an error is returned. -/
def stopRulesFlag.Set (flag : stopRulesFlag) (value : String) : stopRulesFlag × Bool :=
  let stopRuleParsed := stringsSplit value
  if stopRuleParsed.length ≠ 4 then (flag, true)
  else
    let startStep := (strconvAtoi (stopRuleParsed.getD 3 "")).1
    let stopRule : EarlyStoppingRule :=
      { Name := stopRuleParsed.getD 0 ""
        Value := stopRuleParsed.getD 1 ""
        Comparison := stopRuleParsed.getD 2 ""
        StartStep := startStep }
    (flag ++ [stopRule], false)

/-- The integer a string denotes when it is a decimal integer: an optional sign and
then one or more decimal digits. -/
def decimalInt (s : String) : Option Int :=
  let ds := unsignedPart s.data
  if ds ≠ [] ∧ ds.all Char.isDigit = true then
    let n : Nat := ds.foldl (fun acc c => acc * 10 + (c.toNat - 48)) 0
    some (if s.data.head? = some '-' then -(n : Int) else (n : Int))
  else none

/-- The number that the decimal digits at the start of a string denote, after its
sign if it has one; 0 when there is no digit there. -/
def leadingDigits (s : String) : Nat :=
  ((unsignedPart s.data).takeWhile Char.isDigit).foldl
    (fun acc c => acc * 10 + (c.toNat - 48)) 0

/-- The nearest value of a Go `int` (64 bits). -/
def clampInt64 (x : Int) : Int :=
  if x < -9223372036854775808 then -9223372036854775808
  else if x > 9223372036854775807 then 9223372036854775807
  else x

/-- The function `deleteStopRule` on the slice it is given: `none` is the index panic
of `stopRules[idx]` when `idx` is not below the length. -/
def deleteStopRule (stopRules : List EarlyStoppingRule) (idx : Nat) :
    Option (List EarlyStoppingRule) :=
  if idx ≥ stopRules.length then none
  else
    let last := stopRules.getD (stopRules.length - 1) EarlyStoppingRule.zero
    let s1 := stopRules.set idx last
    let s2 := s1.set (stopRules.length - 1) EarlyStoppingRule.zero
    some (s2.take (stopRules.length - 1))

/-! ## The loop of `watchMetricsFile` -/

/-- What `watchMetricsFile` reads from outside the loop: the result of
`strconv.ParseFloat(s, 64)` (value and whether `err != nil`), the list of compiled
filters, each given by its `FindAllStringSubmatch(logText, -1)`, and the two
flags `objMetric` and `objType`. -/
structure Env where
  parseFloat : String → F64 × Bool
  metricRegList : List (String → List (List String))
  objMetric : String
  objType : String

/-- One comparison of a rule with its threshold: the index and rule of the range
loop, the metric value compared and the parsed threshold. -/
structure Eval where
  idx : Nat
  rule : EarlyStoppingRule
  metricValue : F64
  ruleValue : F64
  deriving DecidableEq, Repr

/-- The variables of `watchMetricsFile` that the loop updates. `spare` holds the slots
of the backing array right after the slice `stopRules` that the range loop in
progress still visits; `metricValue` is the variable of the match in progress. -/
structure Watch where
  stopRules : List EarlyStoppingRule
  spare : List EarlyStoppingRule
  metricStartStep : String → Option Int
  optimalObjValue : Option F64
  metricValue : F64

/-- The body of the loop that fills `metricStartStep`. -/
def setStartStep (m : String → Option Int) (stopRule : EarlyStoppingRule) :
    String → Option Int :=
  if stopRule.StartStep ≠ 0 then Function.update m stopRule.Name (some stopRule.StartStep)
  else m

/-- The map `metricStartStep` built before the loop starts. -/
def initStartStep (stopRules : List EarlyStoppingRule) : String → Option Int :=
  stopRules.foldl setStartStep (fun _ => none)

/-- The variables when the loop over the lines starts. -/
def Watch.init (stopRules : stopRulesFlag) : Watch :=
  { stopRules := stopRules
    spare := []
    metricStartStep := initStartStep stopRules
    optimalObjValue := none
    metricValue := .fin 0 }

/-- The value `*optimalObjValue` after the block "Calculate optimalObjValue": the chain
`if optimalObjValue == nil ... else if ... else if ...`, read on the old
`optimalObjValue` and on `metricValue`. -/
def optimalOf (objType : String) (optimalObjValue : Option F64) (metricValue : F64) : F64 :=
  match optimalObjValue with
  | none => metricValue
  | some o =>
    if objType = ObjectiveTypeMaximize ∧ F64.gt metricValue o = true then metricValue
    else if objType = ObjectiveTypeMinimize ∧ F64.lt metricValue o = true then metricValue
    else o

/-- The block "Calculate optimalObjValue" for a metric that is the objective: it ends
with "Assign best optimal value to metric value". -/
def calcOptimal (env : Env) (w : Watch) : Watch :=
  { w with
    optimalObjValue := some (optimalOf env.objType w.optimalObjValue w.metricValue)
    metricValue := optimalOf env.objType w.optimalObjValue w.metricValue }

/-- The comparison of the metric value with the threshold of the rule: whether
`deleteStopRule` is called. -/
def ruleReached (rule : EarlyStoppingRule) (metricValue ruleValue : F64) : Bool :=
  if rule.Comparison = ComparisonTypeEqual ∧ F64.eq metricValue ruleValue = true then true
  else if rule.Comparison = ComparisonTypeLess ∧ F64.lt metricValue ruleValue = true then true
  else if rule.Comparison = ComparisonTypeGreater ∧ F64.gt metricValue ruleValue = true then
    true
  else false

/-- The block "Calculate optimalObjValue", under its test `metricName == objMetric`. -/
def objStep (env : Env) (metricName : String) (w : Watch) : Watch :=
  if metricName = env.objMetric then calcOptimal env w else w

/-- The block "Reduce steps if appropriate metric is reported": the new variables and
whether the `continue` is taken. -/
def reduceSteps (metricName : String) (w : Watch) : Watch × Bool :=
  match w.metricStartStep metricName with
  | some c =>
    let c1 := wrapInt64 (c - 1)
    ({ w with metricStartStep := Function.update w.metricStartStep metricName (some c1) },
      decide (c1 ≠ 0))
  | none => (w, false)

/-- The end of the loop body: the threshold is parsed and compared with the metric
value, and the rule is deleted when the comparison holds. The comparison is recorded;
`none` is the panic of `deleteStopRule`. -/
def applyRule (env : Env) (w : Watch) (idx : Nat) (rule : EarlyStoppingRule) :
    Option (Watch × List Eval) :=
  let ruleValue := (env.parseFloat rule.Value).1
  if ruleReached rule w.metricValue ruleValue then
    match deleteStopRule w.stopRules idx with
    | none => none
    | some rest =>
      some ({ w with stopRules := rest, spare := EarlyStoppingRule.zero :: w.spare },
        [⟨idx, rule, w.metricValue, ruleValue⟩])
  else some (w, [⟨idx, rule, w.metricValue, ruleValue⟩])

/-- The element the range loop reads at `idx`: the loop walks the backing array over
the length the slice had when the loop started. -/
def Watch.visited (w : Watch) (idx : Nat) : EarlyStoppingRule :=
  (w.stopRules ++ w.spare).getD idx EarlyStoppingRule.zero

/-- One iteration of `for idx, rule := range stopRules` for the metric `metricName`:
the new variables and the comparisons made (none or one); `none` is a panic. -/
def ruleIter (env : Env) (metricName : String) (w : Watch) (idx : Nat) :
    Option (Watch × List Eval) :=
  if metricName ≠ (w.visited idx).Name then some (w, [])
  else if (reduceSteps metricName (objStep env metricName w)).2 then
    some ((reduceSteps metricName (objStep env metricName w)).1, [])
  else applyRule env (reduceSteps metricName (objStep env metricName w)).1 idx (w.visited idx)

/-- The iterations `idx, idx + 1, ...` of the range loop, `n` of them. -/
def rulesLoop (env : Env) (metricName : String) :
    Nat → Nat → Watch → Option (Watch × List Eval)
  | 0, _, w => some (w, [])
  | n + 1, idx, w =>
    match ruleIter env metricName w idx with
    | none => none
    | some (w1, evs) =>
      match rulesLoop env metricName n (idx + 1) w1 with
      | none => none
      | some (w2, evs2) => some (w2, evs ++ evs2)

/-- The whole loop `for idx, rule := range stopRules` for one metric name and value:
the range expression is evaluated once, so the loop makes as many iterations as the
slice is long when it starts. -/
def observe (env : Env) (w : Watch) (metricName : String) (metricValue : F64) :
    Option (Watch × List Eval) :=
  rulesLoop env metricName w.stopRules.length 0
    { w with spare := [], metricValue := metricValue }

/-- The body of `for _, subMatchList := range matchStrings`. -/
def matchIter (env : Env) (w : Watch) (subMatchList : List String) :
    Option (Watch × List Eval) :=
  if subMatchList.length < 3 then some (w, [])
  else
    let metricName := trimSpace (subMatchList.getD 1 "")
    let metricValue := (env.parseFloat (trimSpace (subMatchList.getD 2 ""))).1
    observe env w metricName metricValue

/-- The loop `for _, subMatchList := range matchStrings`. -/
def matchesLoop (env : Env) : Watch → List (List String) → Option (Watch × List Eval)
  | w, [] => some (w, [])
  | w, subMatchList :: rest =>
    match matchIter env w subMatchList with
    | none => none
    | some (w1, evs) =>
      match matchesLoop env w1 rest with
      | none => none
      | some (w2, evs2) => some (w2, evs ++ evs2)

/-- The loop `for _, metricReg := range metricRegList` on one line. -/
def regsLoop (env : Env) (logText : String) :
    Watch → List (String → List (List String)) → Option (Watch × List Eval)
  | w, [] => some (w, [])
  | w, metricReg :: rest =>
    match matchesLoop env w (metricReg logText) with
    | none => none
    | some (w1, evs) =>
      match regsLoop env logText w1 rest with
      | none => none
      | some (w2, evs2) => some (w2, evs ++ evs2)

/-- The check "log line contains metric from stop rules". -/
def isRuleLine (stopRules : List EarlyStoppingRule) (logText : String) : Bool :=
  stopRules.any (fun rule => stringsContains logText rule.Name)

/-- What processing one line gives: the variables, the comparisons made, and whether
the block under `if len(stopRules) == 0` was entered. -/
structure LineResult where
  watch : Watch
  evals : List Eval
  triggered : Bool

/-- The body of `for line := range t.Lines`, up to the entry of the early-stop block. -/
def lineIter (env : Env) (w : Watch) (logText : String) : Option LineResult :=
  if ¬ isRuleLine w.stopRules logText then some ⟨w, [], false⟩
  else
    match regsLoop env logText w env.metricRegList with
    | none => none
    | some (w1, evs) => some ⟨w1, evs, decide (w1.stopRules.length = 0)⟩

/-- The loop `for line := range t.Lines` on the lines read so far: the variables at the
end and what processing each line gave. -/
def linesLoop (env : Env) : Watch → List String → Option (Watch × List LineResult)
  | w, [] => some (w, [])
  | w, logText :: rest =>
    match lineIter env w logText with
    | none => none
    | some r =>
      match linesLoop env r.watch rest with
      | none => none
      | some (w2, rs) => some (w2, r :: rs)

/-- The loop of `watchMetricsFile` on the lines read so far. -/
def watchMetricsFile (env : Env) (stopRules : stopRulesFlag) (lines : List String) :
    Option (Watch × List LineResult) :=
  linesLoop env (Watch.init stopRules) lines

/-- A sequence of range loops, one per observation `(metricName, metricValue)`: the
variables at the end and the comparisons made for each observation. -/
def observeAll (env : Env) : Watch → List (String × F64) → Option (Watch × List (List Eval))
  | w, [] => some (w, [])
  | w, o :: rest =>
    match observe env w o.1 o.2 with
    | none => none
    | some (w1, evs) =>
      match observeAll env w1 rest with
      | none => none
      | some (w2, evss) => some (w2, evs :: evss)

/-- Whether the comparison recorded in `e` called `deleteStopRule`. -/
def Eval.reached (e : Eval) : Bool := ruleReached e.rule e.metricValue e.ruleValue

/-- The slots after the slice hold the zero value only. -/
def Watch.spareZero (w : Watch) : Prop := ∀ r ∈ w.spare, r = EarlyStoppingRule.zero

/-- How the variables after some iterations of the range loop for the metric
`metricName` relate to the variables before: spare slots stay zero, rules are only
removed, one per comparison that held, only rules named `metricName` go or are
compared, only the counter of `metricName` moves, and the best objective value moves
only for the objective metric. -/
def ObsRel (env : Env) (metricName : String) (w w1 : Watch) (evs : List Eval) : Prop :=
  w1.spareZero ∧ w1.stopRules.Subperm w.stopRules ∧
    w1.stopRules.length + (evs.filter Eval.reached).length = w.stopRules.length ∧
    (∀ x, x ≠ metricName →
      (w1.stopRules.filter (fun r => decide (r.Name = x))).Perm
        (w.stopRules.filter (fun r => decide (r.Name = x)))) ∧
    (∀ x, x ≠ metricName → w1.metricStartStep x = w.metricStartStep x) ∧
    (metricName ≠ env.objMetric → w1.optimalObjValue = w.optimalObjValue) ∧
    (∀ e ∈ evs, e.rule.Name = metricName)

/-- How the variables after part of a line relate to the variables before: rules are
only removed, one per comparison that held. -/
def LineRel (w w1 : Watch) (evs : List Eval) : Prop :=
  w1.stopRules.Subperm w.stopRules ∧
    w1.stopRules.length + (evs.filter Eval.reached).length = w.stopRules.length

/-- How many of the observations are of the metric `metricName`. -/
def countNamed (metricName : String) (obs : List (String × F64)) : Nat :=
  (obs.filter (fun o => decide (o.1 = metricName))).length

/-! ## A concrete environment for the examples -/

/-- The result of `strconv.ParseFloat(s, 64)` on the strings the examples use: a few
decimal fractions with their exact float64 value, and whole numbers below `2^53`.
Any other string is read as not numeric, the syntax error of `ParseFloat` that comes
with the value 0; the examples use only strings on which that is what `ParseFloat`
returns. -/
def goParseFloat (s : String) : F64 × Bool :=
  if s = "0.9" then (F64.dyadic 8106479329266893 53, false)
  else if s = "0.95" then (F64.dyadic 4278419646001971 52, false)
  else if s = "0.4" then (F64.dyadic 3602879701896397 53, false)
  else if s = "0.3" then (F64.dyadic 5404319552844595 54, false)
  else if s = "0.7" then (F64.dyadic 3152519739159347 52, false)
  else if s = "0.1" then (F64.dyadic 3602879701896397 55, false)
  else if s = "0.05" then (F64.dyadic 3602879701896397 56, false)
  else if s = "0.5" then (F64.dyadic 1 1, false)
  else if s = "" then (.fin 0, true)
  else
    match digitsValue s.data 0 with
    | some n => if n < 9007199254740992 then (F64.dyadic n 0, false) else (.fin 0, true)
    | none => (.fin 0, true)

/-- `FindAllStringSubmatch(logText, -1)` of the filter `^([^=]*)=(.*)$` on a line: no
match without `=`, else one match made of the line, the text before the first `=` and
the text after it. -/
def kvFilter (logText : String) : List (List String) :=
  if '=' ∈ logText.data then
    [[logText, String.mk (logText.data.takeWhile (fun c => c ≠ '=')),
      String.mk ((logText.data.dropWhile (fun c => c ≠ '=')).tail)]]
  else []

/-- The collector run with the filter `^([^=]*)=(.*)$`, metric names `F1;...` and
objective type `maximize`. -/
def exEnv : Env :=
  { parseFloat := goParseFloat
    metricRegList := [kvFilter]
    objMetric := "F1"
    objType := ObjectiveTypeMaximize }

/-- The rule "stop when `loss` is below 0.1", eligible at once. -/
def lossRule : EarlyStoppingRule := ⟨"loss", "0.1", "less", 0⟩

/-- The rule "stop when `acc` is above 0.9", with the given start step. -/
def accRule (startStep : Int) : EarlyStoppingRule := ⟨"acc", "0.9", "greater", startStep⟩

/-- The rule "stop when `acc` is above 0.5", eligible at once. -/
def accHalfRule : EarlyStoppingRule := ⟨"acc", "0.5", "greater", 0⟩

/-- The rule "stop when `acc` is below 0.5", with the given start step. -/
def accLowRule (startStep : Int) : EarlyStoppingRule := ⟨"acc", "0.5", "less", startStep⟩

/-- The rule "stop when `F1` is above 0.9", eligible at once. -/
def f1Rule : EarlyStoppingRule := ⟨"F1", "0.9", "greater", 0⟩

/-- The float64 value of a decimal string of the examples. -/
def f64 (s : String) : F64 := (goParseFloat s).1

/-- What the examples show of a processed line: the rules compared with the values
they were compared with, the live rules left, whether the early-stop block was
entered. -/
def LineResult.view (r : LineResult) :
    List (EarlyStoppingRule × F64) × List EarlyStoppingRule × Bool :=
  (r.evals.map (fun e => (e.rule, e.metricValue)), r.watch.stopRules, r.triggered)

/-! ## The running best of the specification -/

/-- The greater of two values, the first unless the second is greater. -/
def F64.max (a b : F64) : F64 := if F64.lt a b then b else a

/-- The smaller of two values, the first unless the second is smaller. -/
def F64.min (a b : F64) : F64 := if F64.lt b a then b else a

/-- The running maximum of the values seen so far, the first observation being the
initial best. -/
def runningMax : List F64 → Option F64
  | [] => none
  | v :: vs => some (vs.foldl F64.max v)

/-- The running minimum of the values seen so far, the first observation being the
initial best. -/
def runningMin : List F64 → Option F64
  | [] => none
  | v :: vs => some (vs.foldl F64.min v)

/-- The values of the observations of the objective metric, in order. -/
def objValues (env : Env) (obs : List (String × F64)) : List F64 :=
  (obs.filter (fun o => decide (o.1 = env.objMetric))).map (fun o => o.2)

/-- Every observation of the objective metric in the sequence is made while some live
rule is named after the objective metric. -/
def objLive (env : Env) : Watch → List (String × F64) → Bool
  | _, [] => true
  | w, o :: rest =>
    (decide (o.1 ≠ env.objMetric) ||
        w.stopRules.any (fun rule => decide (rule.Name = env.objMetric))) &&
      (match observe env w o.1 o.2 with
        | none => false
        | some (w1, _) => objLive env w1 rest)

/-- The variable `optimalObjValue` after the block "Calculate optimalObjValue" has run
on each of the values in turn. -/
def bestAfter (objType : String) (optimalObjValue : Option F64) (values : List F64) :
    Option F64 :=
  values.foldl (fun o v => some (optimalOf objType o v)) optimalObjValue

/-! ## The early-stop block of `watchMetricsFile` -/

/-- What the early-stop block does, one entry per statement with an effect. -/
inductive Action where
  | log (msg : String)
  | setEarlyStopped
  | createMarkFile
  | writeMarkFile
  | getChildren
  | terminate (pid : Nat)
  | reportMetrics
  | waitMainProcess
  | dialEarlyStopping
  | setTrialStatus
  | closeConn
  deriving DecidableEq, Repr

/-- What the calls made by the early-stop block return: whether `os.Create`,
`ioutil.WriteFile`, `mainProc.Children`, `Terminate`, `grpc.Dial` and `SetTrialStatus`
return an error, and the processes `mainProc.Children` returns. -/
structure Outside where
  createErr : Bool
  writeErr : Bool
  childProc : List Nat
  childrenErr : Bool
  terminateErr : Bool
  dialErr : Bool
  statusErr : Bool

/-- The statements of the early-stop block down to `childProc[0].Terminate()`. -/
def earlyStopHead (x : Outside) : List Action :=
  [.log "Training container is early stopped", .setEarlyStopped, .createMarkFile] ++
  (if x.createErr then [.log "Create mark file error"] else []) ++
  [.writeMarkFile] ++
  (if x.writeErr then [.log "Write to file error"] else []) ++
  [.getChildren] ++
  (if x.childrenErr then [.log "Get children proceses for main PID failed"] else []) ++
  (if x.childProc.length ≠ 1 then
    [.log "Multiple children processes are not supported"] else [])

/-- The statements of the early-stop block from `childProc[0].Terminate()` on, for the
first child `pid`. -/
def earlyStopTail (x : Outside) (pid : Nat) : List Action :=
  [.terminate pid] ++
  (if x.terminateErr then [.log "Unable to terminate child process"] else []) ++
  [.reportMetrics, .waitMainProcess, .dialEarlyStopping] ++
  (if x.dialErr then [.log "Could not connect to Early Stopping service"] else []) ++
  [.setTrialStatus] ++
  (if x.statusErr then [.log "Set Trial status error"] else []) ++
  [.closeConn, .log "Trial status is successfully updated"]

/-- The block under `if len(stopRules) == 0`: what it does, and whether it ends in the
index panic of `childProc[0]`. -/
def earlyStopBlock (x : Outside) : List Action × Bool :=
  match x.childProc with
  | [] => (earlyStopHead x, true)
  | pid :: _ => (earlyStopHead x ++ earlyStopTail x pid, false)

/-! ## `RegisterObservationLog` -/

/-- `v1beta1.MetricLog` with its metric: time stamp, metric name and value. -/
structure MetricLog where
  TimeStamp : String
  Name : String
  Value : String
  deriving DecidableEq, Repr

/-- What `RegisterObservationLog` calls outside: `sqlTime` is `time.Parse` with the
layout `time.RFC3339Nano` followed by `t.UTC().Format(mysqlTimeFmt)`, `none` when the
parse fails; `prepare` and `exec` tell whether `d.db.Prepare` and `stmt.Exec`
succeed. -/
structure Db where
  sqlTime : String → Option String
  prepare : String → Bool
  exec : String → List String → Bool

/-- The initial value of `sqlQuery`. -/
def insertHead : String :=
  "INSERT INTO observation_logs (trial_name, time, metric_name, value) VALUES "

/-- The loop over `observationLog.MetricLogs`: `sqlQuery` and `values` after it, or
`none` when the loop is left by `return fmt.Errorf("Error parsing start time ...")`. -/
def insertLoop (db : Db) (trialName : String) :
    List MetricLog → String → List String → Option (String × List String)
  | [], sqlQuery, values => some (sqlQuery, values)
  | mlog :: rest, sqlQuery, values =>
    if mlog.TimeStamp = "" then insertLoop db trialName rest sqlQuery values
    else
      match db.sqlTime mlog.TimeStamp with
      | none => none
      | some sqlTimeStr =>
        insertLoop db trialName rest (sqlQuery ++ "(?, ?, ?, ?),")
          (values ++ [trialName, sqlTimeStr, mlog.Name, mlog.Value])

/-- The statement and the arguments that `RegisterObservationLog` hands to the
database, `sqlQuery[0 : len(sqlQuery)-1]` and `values`; `none` when it returns before
that. -/
def insertStatement (db : Db) (trialName : String) (metricLogs : List MetricLog) :
    Option (String × List String) :=
  match insertLoop db trialName metricLogs insertHead [] with
  | none => none
  | some (sqlQuery, values) => some (String.mk sqlQuery.data.dropLast, values)

/-- The method `RegisterObservationLog`: the error returned, `none` for `nil`. -/
def RegisterObservationLog (db : Db) (trialName : String) (metricLogs : List MetricLog) :
    Option String :=
  match insertStatement db trialName metricLogs with
  | none => some "Error parsing start time"
  | some (sqlQuery, values) =>
    if ¬ db.prepare sqlQuery then some "Pepare SQL statement failed"
    else if ¬ db.exec sqlQuery values then some "Execute SQL INSERT failed"
    else none

/-- A database that parses every time stamp and, like MySQL, rejects an `INSERT`
whose `VALUES` keyword is followed by no row. -/
def exDb : Db :=
  { sqlTime := fun s => some s
    prepare := fun q => decide (q ≠ String.mk insertHead.data.dropLast ∧ q ≠ insertHead)
    exec := fun _ _ => true }

/-- The observation that a submatch list gives to the range loop, none when it has
fewer than three entries. -/
def matchObs (env : Env) (subMatchList : List String) : Option (String × F64) :=
  if subMatchList.length < 3 then none
  else
    some (trimSpace (subMatchList.getD 1 ""),
      (env.parseFloat (trimSpace (subMatchList.getD 2 ""))).1)

/-- The observations that a line gives to the range loop, in order: those of every
match of every filter when the line names a live rule, none otherwise. -/
def lineObs (env : Env) (w : Watch) (logText : String) : List (String × F64) :=
  if isRuleLine w.stopRules logText then
    (env.metricRegList.map (fun metricReg => (metricReg logText).filterMap (matchObs env))).flatten
  else []

/-! ## The two activities of `main` -/

/-- Where the function `main` stands once the watcher goroutine is started: inside
`common.WaitMainProcesses`, at the test `if !isEarlyStopped`, at its call of
`reportMetrics`, at its return. -/
inductive MainPc where
  | waiting
  | testFlag
  | report
  | ret
  deriving DecidableEq, Repr

/-- The two activities: the goroutine `watchMetricsFile` and the function `main`. -/
inductive Activity where
  | watcher
  | main
  deriving DecidableEq, Repr

/-- The program while both activities run: the global `isEarlyStopped`, the variables
of the watcher, the lines it has not read yet, the statements of the early-stop block
it still has to run and whether that block then ends in the panic of `childProc[0]`,
the place where `main` stands, the calls of `reportMetrics` made so far, and whether
the process has ended. -/
structure Sys where
  isEarlyStopped : Bool
  watch : Watch
  lines : List String
  todo : List Action
  panics : Bool
  mainPc : MainPc
  reports : Nat
  exited : Bool

/-- The program when `main` has started `go watchMetricsFile(...)` and enters
`common.WaitMainProcesses`; `isEarlyStopped` is declared `false`. -/
def Sys.init (stopRules : stopRulesFlag) (lines : List String) : Sys :=
  { isEarlyStopped := false
    watch := Watch.init stopRules
    lines := lines
    todo := []
    panics := false
    mainPc := .waiting
    reports := 0
    exited := false }

/-- One statement of the early-stop block, on the global flag and on the count of
reports: `isEarlyStopped = true` sets the flag, `reportMetrics(filters)` is a report,
the other statements touch neither. -/
def Sys.perform (s : Sys) (a : Action) : Sys :=
  match a with
  | .setEarlyStopped => { s with isEarlyStopped := true }
  | .reportMetrics => { s with reports := s.reports + 1 }
  | _ => s

/-- One step of the watcher: the next statement of the early-stop block when it is in
it, the panic that ends the block, or else the next line, whose processing may enter
the block. A panic ends the process. Without a line to read the watcher waits: `none`. -/
def watcherStep (env : Env) (x : Outside) (s : Sys) : Option Sys :=
  match s.todo with
  | a :: rest => some { s.perform a with todo := rest }
  | [] =>
    if s.panics then some { s with panics := false, exited := true }
    else
      match s.lines with
      | [] => none
      | logText :: rest =>
        match lineIter env s.watch logText with
        | none => some { s with lines := rest, exited := true }
        | some r =>
          if r.triggered then
            some { s with
              watch := r.watch, lines := rest
              todo := (earlyStopBlock x).1, panics := (earlyStopBlock x).2 }
          else some { s with watch := r.watch, lines := rest }

/-- One step of `main`: `common.WaitMainProcesses` returns (an error is only logged),
the test `if !isEarlyStopped` reads the flag, `reportMetrics(filters)` is called, `main`
returns, which ends the process and with it the watcher. -/
def mainStep (s : Sys) : Sys :=
  match s.mainPc with
  | .waiting => { s with mainPc := .testFlag }
  | .testFlag =>
    if ¬ s.isEarlyStopped then { s with mainPc := .report } else { s with mainPc := .ret }
  | .report => { s with reports := s.reports + 1, mainPc := .ret }
  | .ret => { s with exited := true }

/-- One step of the chosen activity; `none` when the process has ended or the activity
cannot move. -/
def Sys.step (env : Env) (x : Outside) (s : Sys) (t : Activity) : Option Sys :=
  if s.exited then none
  else
    match t with
    | .watcher => watcherStep env x s
    | .main => some (mainStep s)

/-- An interleaving of the two activities: the steps are taken in the order the
schedule names the activities. -/
def Sys.run (env : Env) (x : Outside) : Sys → List Activity → Option Sys
  | s, [] => some s
  | s, t :: rest =>
    match s.step env x t with
    | none => none
    | some s1 => Sys.run env x s1 rest

/-- The outside of an early-stop block that finds the single child 41 and meets no
error. -/
def oneChild : Outside := ⟨false, false, [41], false, false, false, false⟩

/-! ## Proofs -/

/-! ## Properties of `deleteStopRule` -/

lemma set_last_take {α : Type} (l : List α) (i : Nat) (x z : α) (hi : i < l.length) :
    (((l.set i x).set (l.length - 1) z).take (l.length - 1)).Perm
      (if i = l.length - 1 then l.take (l.length - 1) else x :: (l.take (l.length - 1)).eraseIdx i) := by
  have h1 : ((l.set i x).set (l.length - 1) z).take (l.length - 1)
      = (l.set i x).take (l.length - 1) := by
    apply List.ext_getElem
    · simp
    · intro n h1 h2
      simp only [List.getElem_take]
      rw [List.getElem_set_ne]
      simp at h1
      omega
  rw [h1]
  by_cases hl : i = l.length - 1
  · simp only [hl, if_true]
    apply List.Perm.of_eq
    apply List.ext_getElem
    · simp
    · intro n h1 h2
      simp only [List.getElem_take]
      rw [List.getElem_set_ne]
      simp at h1
      omega
  · simp only [hl, if_false]
    have hi2 : i < (l.take (l.length - 1)).length := by simp; omega
    have h2 : (l.set i x).take (l.length - 1) = (l.take (l.length - 1)).set i x := by
      apply List.ext_getElem
      · simp
      · intro n h1 h2
        simp only [List.getElem_take, List.getElem_set]
    rw [h2, List.set_eq_take_append_cons_drop, if_pos hi2, List.eraseIdx_eq_take_drop_succ]
    exact List.perm_middle

lemma deleteStopRule_perm (rs : List EarlyStoppingRule) (idx : Nat) (h : idx < rs.length) :
    ∃ out, deleteStopRule rs idx = some out ∧ out.length = rs.length - 1 ∧
      out.Perm (rs.eraseIdx idx) := by
  have hn : ¬ idx ≥ rs.length := by omega
  have hdef : deleteStopRule rs idx = some ((((rs.set idx
      (rs.getD (rs.length - 1) EarlyStoppingRule.zero)).set (rs.length - 1)
      EarlyStoppingRule.zero)).take (rs.length - 1)) := by
    simp only [deleteStopRule, if_neg hn]
  refine ⟨_, hdef, ?_, ?_⟩
  · simp
  · have hne : rs ≠ [] := by intro h0; simp [h0] at h
    have hlast : rs.getD (rs.length - 1) EarlyStoppingRule.zero = rs.getLast hne := by
      rw [List.getD_eq_getElem _ _ (by omega), List.getLast_eq_getElem]
    have hsplit : rs = rs.take (rs.length - 1) ++ [rs.getLast hne] := by
      rw [← List.dropLast_eq_take, List.dropLast_append_getLast]
    refine (set_last_take rs idx _ _ h).trans ?_
    rw [hlast]
    by_cases hl : idx = rs.length - 1
    · simp only [hl, if_true]
      rw [← List.dropLast_eq_take, List.eraseIdx_eq_take_drop_succ]
      have : List.drop (rs.length - 1 + 1) rs = [] := by
        apply List.drop_eq_nil_of_le; omega
      rw [this, List.append_nil, List.dropLast_eq_take]
    · simp only [hl, if_false]
      have hi2 : idx < (rs.take (rs.length - 1)).length := by simp; omega
      conv_rhs => rw [hsplit]
      rw [List.eraseIdx_append_of_lt_length hi2]
      exact (List.perm_append_singleton _ _).symm

lemma ruleReached_zero (a b : F64) : ruleReached EarlyStoppingRule.zero a b = false := by
  simp [ruleReached, EarlyStoppingRule.zero, ComparisonTypeEqual, ComparisonTypeLess,
    ComparisonTypeGreater]

lemma visited_spare (w : Watch) (idx : Nat) (hs : w.spareZero) (h : w.stopRules.length ≤ idx) :
    w.visited idx = EarlyStoppingRule.zero := by
  unfold Watch.visited
  rw [List.getD_append_right _ _ _ _ h]
  by_cases h2 : idx - w.stopRules.length < w.spare.length
  · rw [List.getD_eq_getElem _ _ h2]
    exact hs _ (List.getElem_mem _)
  · exact List.getD_eq_default _ _ (by omega)

lemma visited_live (w : Watch) (idx : Nat) (h : idx < w.stopRules.length) :
    w.visited idx = w.stopRules.getD idx EarlyStoppingRule.zero := by
  unfold Watch.visited
  exact List.getD_append _ _ _ _ h

lemma objStep_fields (env : Env) (m : String) (w : Watch) :
    (objStep env m w).stopRules = w.stopRules ∧ (objStep env m w).spare = w.spare ∧
      (objStep env m w).metricStartStep = w.metricStartStep := by
  unfold objStep
  split <;> simp [calcOptimal]

lemma objStep_other (env : Env) (m : String) (w : Watch) (h : m ≠ env.objMetric) :
    objStep env m w = w := by
  simp [objStep, h]

lemma reduceSteps_fields (m : String) (w : Watch) :
    (reduceSteps m w).1.stopRules = w.stopRules ∧ (reduceSteps m w).1.spare = w.spare ∧
      (reduceSteps m w).1.optimalObjValue = w.optimalObjValue ∧
      (reduceSteps m w).1.metricValue = w.metricValue ∧
      ∀ x, x ≠ m → (reduceSteps m w).1.metricStartStep x = w.metricStartStep x := by
  unfold reduceSteps
  split
  · refine ⟨rfl, rfl, rfl, rfl, ?_⟩
    intro x hx
    simp [Function.update, hx]
  · exact ⟨rfl, rfl, rfl, rfl, fun _ _ => rfl⟩

/-- The comparison block never panics while the spare slots are zero, and it either
leaves the slice alone or deletes the element at `idx`. -/
lemma applyRule_spec (env : Env) (w : Watch) (idx : Nat) (hs : w.spareZero) :
    ∃ w1 e, applyRule env w idx (w.visited idx) = some (w1, [e]) ∧ w1.spareZero ∧
      e.rule = w.visited idx ∧ e.metricValue = w.metricValue ∧
      e.ruleValue = (env.parseFloat (w.visited idx).Value).1 ∧
      w1.metricStartStep = w.metricStartStep ∧ w1.optimalObjValue = w.optimalObjValue ∧
      w1.metricValue = w.metricValue ∧
      ((e.reached = false ∧ w1.stopRules = w.stopRules ∧ w1.spare = w.spare) ∨
        (e.reached = true ∧ idx < w.stopRules.length ∧
          deleteStopRule w.stopRules idx = some w1.stopRules ∧
          w1.spare = EarlyStoppingRule.zero :: w.spare)) := by
  unfold applyRule
  by_cases hr : ruleReached (w.visited idx) w.metricValue
      (env.parseFloat (w.visited idx).Value).1 = true
  · have hlt : idx < w.stopRules.length := by
      by_contra hge
      rw [visited_spare w idx hs (by omega), ruleReached_zero] at hr
      exact Bool.false_ne_true hr
    obtain ⟨out, hout, -, -⟩ := deleteStopRule_perm w.stopRules idx hlt
    simp only [hr, if_true, hout]
    refine ⟨_, _, rfl, ?_, rfl, rfl, rfl, rfl, rfl, rfl, Or.inr ⟨hr, hlt, rfl, rfl⟩⟩
    intro r hr2
    simp only [List.mem_cons] at hr2
    rcases hr2 with h | h
    · exact h
    · exact hs r h
  · simp only [hr, if_false]
    refine ⟨_, _, rfl, hs, rfl, rfl, rfl, rfl, rfl, rfl, Or.inl ⟨?_, rfl, rfl⟩⟩
    simpa [Eval.reached] using hr

lemma eraseIdx_filter_of_not {α : Type} (l : List α) (i : Nat) (p : α → Bool) (d : α)
    (hi : i < l.length) (hp : p (l.getD i d) = false) :
    (l.eraseIdx i).filter p = l.filter p := by
  rw [List.getD_eq_getElem _ _ hi] at hp
  have h : l = l.take i ++ l[i] :: l.drop (i + 1) := by
    rw [← List.drop_eq_getElem_cons, List.take_append_drop]
  conv_rhs => rw [h]
  rw [List.eraseIdx_eq_take_drop_succ, List.filter_append, List.filter_append,
    List.filter_cons_of_neg (by simp [hp])]

lemma obsRel_refl (env : Env) (m : String) (w : Watch) (hs : w.spareZero) :
    ObsRel env m w w [] :=
  ⟨hs, List.Subperm.refl _, by simp, fun _ _ => List.Perm.refl _, fun _ _ => rfl, fun _ => rfl,
    by simp⟩

lemma obsRel_trans {env : Env} {m : String} {w w1 w2 : Watch} {e1 e2 : List Eval}
    (h1 : ObsRel env m w w1 e1) (h2 : ObsRel env m w1 w2 e2) :
    ObsRel env m w w2 (e1 ++ e2) := by
  obtain ⟨-, a2, a3, a4, a5, a6, a7⟩ := h1
  obtain ⟨b1, b2, b3, b4, b5, b6, b7⟩ := h2
  refine ⟨b1, b2.trans a2, ?_, ?_, ?_, ?_, ?_⟩
  · rw [List.filter_append, List.length_append]; omega
  · intro x hx; exact (b4 x hx).trans (a4 x hx)
  · intro x hx; rw [b5 x hx, a5 x hx]
  · intro ho; rw [b6 ho, a6 ho]
  · intro e he
    rcases List.mem_append.mp he with h | h
    · exact a7 e h
    · exact b7 e h

lemma ruleIter_spec (env : Env) (m : String) (w : Watch) (idx : Nat) (hs : w.spareZero) :
    ∃ w1 evs, ruleIter env m w idx = some (w1, evs) ∧ ObsRel env m w w1 evs := by
  unfold ruleIter
  by_cases hname : m ≠ (w.visited idx).Name
  · rw [if_pos hname]
    exact ⟨w, [], rfl, obsRel_refl env m w hs⟩
  · rw [if_neg hname]
    push_neg at hname
    obtain ⟨o1, o2, o3⟩ := objStep_fields env m w
    obtain ⟨r1, r2, r3, r4, r5⟩ := reduceSteps_fields m (objStep env m w)
    have hopt : m ≠ env.objMetric →
        (reduceSteps m (objStep env m w)).1.optimalObjValue = w.optimalObjValue := by
      intro ho; rw [r3, objStep_other env m w ho]
    have hs2 : (reduceSteps m (objStep env m w)).1.spareZero := by
      unfold Watch.spareZero; rw [r2, o2]; exact hs
    by_cases hskip : (reduceSteps m (objStep env m w)).2 = true
    · simp only [hskip, if_true]
      refine ⟨_, _, rfl, hs2, ?_, ?_, ?_, ?_, hopt, by simp⟩
      · rw [r1, o1]
      · simp [r1, o1]
      · intro x _; rw [r1, o1]
      · intro x hx; rw [r5 x hx, o3]
    · simp only [hskip]
      have hv : (reduceSteps m (objStep env m w)).1.visited idx = w.visited idx := by
        unfold Watch.visited; rw [r1, r2, o1, o2]
      obtain ⟨w1, e, he, hz, hrule, -, -, hm, ho, -, hcase⟩ :=
        applyRule_spec env (reduceSteps m (objStep env m w)).1 idx hs2
      rw [hv] at he hrule
      refine ⟨w1, [e], by simpa using he, hz, ?_, ?_, ?_, ?_, ?_, ?_⟩
      · rcases hcase with ⟨-, h1, -⟩ | ⟨-, hlt, hdel, -⟩
        · rw [h1, r1, o1]
        · rw [r1, o1] at hlt hdel
          obtain ⟨out, hout, -, hperm⟩ := deleteStopRule_perm w.stopRules idx hlt
          rw [hdel] at hout
          cases hout
          exact hperm.subperm.trans (List.eraseIdx_sublist _ _).subperm
      · rcases hcase with ⟨hr, h1, -⟩ | ⟨hr, hlt, hdel, -⟩
        · simp [hr, h1, r1, o1]
        · rw [r1, o1] at hlt hdel
          obtain ⟨out, hout, hlen, -⟩ := deleteStopRule_perm w.stopRules idx hlt
          rw [hdel] at hout
          cases hout
          simp [hr, hlen]; omega
      · intro x hx
        rcases hcase with ⟨-, h1, -⟩ | ⟨-, hlt, hdel, -⟩
        · rw [h1, r1, o1]
        · rw [r1, o1] at hlt hdel
          obtain ⟨out, hout, -, hperm⟩ := deleteStopRule_perm w.stopRules idx hlt
          rw [hdel] at hout
          cases hout
          refine (hperm.filter _).trans (List.Perm.of_eq ?_)
          apply eraseIdx_filter_of_not _ _ _ EarlyStoppingRule.zero hlt
          rw [← visited_live w idx hlt, ← hname]
          simpa using hx.symm
      · intro x hx; rw [hm, r5 x hx, o3]
      · intro hobj; rw [ho]; exact hopt hobj
      · intro e2 he2
        rw [List.mem_singleton] at he2
        rw [he2, hrule, hname]

lemma rulesLoop_spec (env : Env) (m : String) :
    ∀ (n idx : Nat) (w : Watch), w.spareZero →
      ∃ w1 evs, rulesLoop env m n idx w = some (w1, evs) ∧ ObsRel env m w w1 evs := by
  intro n
  induction n with
  | zero =>
    intro idx w hs
    exact ⟨w, [], rfl, obsRel_refl env m w hs⟩
  | succ n ih =>
    intro idx w hs
    obtain ⟨w1, e1, h1, r1⟩ := ruleIter_spec env m w idx hs
    obtain ⟨w2, e2, h2, r2⟩ := ih (idx + 1) w1 r1.1
    refine ⟨w2, e1 ++ e2, ?_, obsRel_trans r1 r2⟩
    simp only [rulesLoop, h1, h2]

lemma observe_spec (env : Env) (w : Watch) (m : String) (v : F64) :
    ∃ w1 evs, observe env w m v = some (w1, evs) ∧ ObsRel env m w w1 evs := by
  have hs : ({ w with spare := [], metricValue := v } : Watch).spareZero := by
    intro r hr; simp at hr
  obtain ⟨w1, evs, h, r⟩ := rulesLoop_spec env m w.stopRules.length 0 _ hs
  exact ⟨w1, evs, h, r⟩

lemma lineRel_refl (w : Watch) : LineRel w w [] := ⟨List.Subperm.refl _, by simp⟩

lemma lineRel_trans {w w1 w2 : Watch} {e1 e2 : List Eval}
    (h1 : LineRel w w1 e1) (h2 : LineRel w1 w2 e2) : LineRel w w2 (e1 ++ e2) := by
  refine ⟨h2.1.trans h1.1, ?_⟩
  have a := h1.2
  have b := h2.2
  rw [List.filter_append, List.length_append]; omega

lemma matchIter_spec (env : Env) (w : Watch) (sub : List String) :
    ∃ w1 evs, matchIter env w sub = some (w1, evs) ∧ LineRel w w1 evs := by
  unfold matchIter
  split
  · exact ⟨w, [], rfl, lineRel_refl w⟩
  · obtain ⟨w1, evs, h, r⟩ := observe_spec env w (trimSpace (sub.getD 1 ""))
      (env.parseFloat (trimSpace (sub.getD 2 ""))).1
    exact ⟨w1, evs, h, r.2.1, r.2.2.1⟩

lemma matchesLoop_spec (env : Env) :
    ∀ (subs : List (List String)) (w : Watch),
      ∃ w1 evs, matchesLoop env w subs = some (w1, evs) ∧ LineRel w w1 evs := by
  intro subs
  induction subs with
  | nil => intro w; exact ⟨w, [], rfl, lineRel_refl w⟩
  | cons sub rest ih =>
    intro w
    obtain ⟨w1, e1, h1, r1⟩ := matchIter_spec env w sub
    obtain ⟨w2, e2, h2, r2⟩ := ih w1
    exact ⟨w2, e1 ++ e2, by simp only [matchesLoop, h1, h2], lineRel_trans r1 r2⟩

lemma regsLoop_spec (env : Env) (logText : String) :
    ∀ (regs : List (String → List (List String))) (w : Watch),
      ∃ w1 evs, regsLoop env logText w regs = some (w1, evs) ∧ LineRel w w1 evs := by
  intro regs
  induction regs with
  | nil => intro w; exact ⟨w, [], rfl, lineRel_refl w⟩
  | cons reg rest ih =>
    intro w
    obtain ⟨w1, e1, h1, r1⟩ := matchesLoop_spec env (reg logText) w
    obtain ⟨w2, e2, h2, r2⟩ := ih w1
    exact ⟨w2, e1 ++ e2, by simp only [regsLoop, h1, h2], lineRel_trans r1 r2⟩

lemma isRuleLine_nil (logText : String) : isRuleLine [] logText = false := rfl

lemma lineIter_spec (env : Env) (w : Watch) (logText : String) :
    ∃ r, lineIter env w logText = some r ∧ LineRel w r.watch r.evals ∧
      (r.triggered = true ↔ w.stopRules ≠ [] ∧ r.watch.stopRules = []) ∧
      (w.stopRules = [] → r.watch = w ∧ r.evals = []) := by
  unfold lineIter
  by_cases hl : isRuleLine w.stopRules logText = true
  · have hne : w.stopRules ≠ [] := by
      intro h0; rw [h0, isRuleLine_nil] at hl; exact Bool.false_ne_true hl
    obtain ⟨w1, evs, h, r⟩ := regsLoop_spec env logText env.metricRegList w
    refine ⟨⟨w1, evs, decide (w1.stopRules.length = 0)⟩, ?_, r, ?_, ?_⟩
    · simp only [hl, not_true_eq_false, if_false, h]
    · simp [hne]
    · intro h0; exact absurd h0 hne
  · refine ⟨⟨w, [], false⟩, ?_, lineRel_refl w, ?_, ?_⟩
    · rw [if_pos hl]
    · simp only [Bool.false_eq_true, false_iff, not_and]
      intro h1 h2; exact h1 h2
    · intro _; exact ⟨rfl, rfl⟩

lemma linesLoop_total (env : Env) :
    ∀ (lines : List String) (w0 : Watch),
      ∃ w rs, linesLoop env w0 lines = some (w, rs) ∧ rs.length = lines.length ∧
        (w0.stopRules = [] → (rs.map LineResult.triggered).count true = 0) ∧
        (rs.map LineResult.triggered).count true ≤ 1 := by
  intro lines
  induction lines with
  | nil => intro w0; exact ⟨w0, [], rfl, rfl, fun _ => rfl, by simp⟩
  | cons l rest ih =>
    intro w0
    obtain ⟨r, hr, -, htrig, hempty⟩ := lineIter_spec env w0 l
    obtain ⟨w, rs, h, hlen, h0, h1⟩ := ih r.watch
    refine ⟨w, r :: rs, by simp only [linesLoop, hr, h], by simp [hlen], ?_, ?_⟩
    · intro he
      have hf : r.triggered = false := by
        cases ht : r.triggered with
        | false => rfl
        | true => exact absurd he (htrig.mp ht).1
      have hw : r.watch.stopRules = [] := by rw [(hempty he).1]; exact he
      rw [List.map_cons, hf, List.count_cons_of_ne (by decide)]
      exact h0 hw
    · rw [List.map_cons]
      cases ht : r.triggered with
      | false => rw [List.count_cons_of_ne (by decide)]; exact h1
      | true =>
        rw [List.count_cons_self, h0 (htrig.mp ht).2]

lemma linesLoop_at (env : Env) :
    ∀ (lines : List String) (w0 w : Watch) (rs : List LineResult),
      linesLoop env w0 lines = some (w, rs) → ∀ i, i < lines.length →
        ∃ wb rb r, linesLoop env w0 (lines.take i) = some (wb, rb) ∧
          lineIter env wb (lines.getD i "") = some r ∧
          linesLoop env w0 (lines.take (i + 1)) = some (r.watch, rb ++ [r]) ∧
          rs.get? i = some r := by
  intro lines
  induction lines with
  | nil => intro w0 w rs _ i hi; simp at hi
  | cons l rest ih =>
    intro w0 w rs h i hi
    obtain ⟨r, hr, -⟩ := lineIter_spec env w0 l
    obtain ⟨w2, rs2, h2, -⟩ := linesLoop_total env rest r.watch
    simp only [linesLoop, hr, h2, Option.some.injEq, Prod.mk.injEq] at h
    obtain ⟨-, hrs⟩ := h
    subst hrs
    cases i with
    | zero =>
      refine ⟨w0, [], r, rfl, by simpa using hr, ?_, by simp⟩
      simp [linesLoop, hr]
    | succ j =>
      have hj : j < rest.length := by simpa using hi
      obtain ⟨wb, rb, r2, a1, a2, a3, a4⟩ := ih r.watch w2 rs2 h2 j hj
      refine ⟨wb, r :: rb, r2, ?_, by simpa using a2, ?_, by simpa using a4⟩
      · simp [linesLoop, hr, a1]
      · simp [linesLoop, hr, a3]

/-- Claim C1: the early-stop block of `watchMetricsFile` is entered while a line is processed
if and only if the live rule set was non-empty before the line and is empty after it;
over any sequence of lines it is entered at most once, and once the rule set is empty
a line is rejected by the rule-name check: nothing is compared and nothing changes. -/
theorem C1_trigger_iff_rules_become_empty (env : Env) (stopRules : stopRulesFlag)
    (lines : List String) :
    ∃ w rs, watchMetricsFile env stopRules lines = some (w, rs) ∧
      rs.length = lines.length ∧ (rs.map LineResult.triggered).count true ≤ 1 ∧
      ∀ i, i < lines.length →
        ∃ wb rb r, watchMetricsFile env stopRules (lines.take i) = some (wb, rb) ∧
          lineIter env wb (lines.getD i "") = some r ∧
          watchMetricsFile env stopRules (lines.take (i + 1)) = some (r.watch, rb ++ [r]) ∧
          rs.get? i = some r ∧
          (r.triggered = true ↔ wb.stopRules ≠ [] ∧ r.watch.stopRules = []) ∧
          (wb.stopRules = [] → r.watch = wb ∧ r.evals = [] ∧ r.triggered = false) := by
  obtain ⟨w, rs, h, hlen, -, hcount⟩ := linesLoop_total env lines (Watch.init stopRules)
  refine ⟨w, rs, h, hlen, hcount, ?_⟩
  intro i hi
  obtain ⟨wb, rb, r, a1, a2, a3, a4⟩ := linesLoop_at env lines _ w rs h i hi
  obtain ⟨r2, hr2, -, htrig, hempty⟩ := lineIter_spec env wb (lines.getD i "")
  rw [a2] at hr2
  cases hr2
  refine ⟨wb, rb, r, a1, a2, a3, a4, htrig, ?_⟩
  intro he
  refine ⟨(hempty he).1, (hempty he).2, ?_⟩
  cases ht : r.triggered with
  | false => rfl
  | true => exact absurd he (htrig.mp ht).1

lemma rulesLoop_skip_then (env : Env) (m : String) :
    ∀ (a b idx : Nat) (w : Watch),
      (∀ j, idx ≤ j → j < idx + a → (w.visited j).Name ≠ m) →
      rulesLoop env m (a + b) idx w = rulesLoop env m b (idx + a) w := by
  intro a
  induction a with
  | zero => intro b idx w _; simp
  | succ a ih =>
    intro b idx w h
    have h0 : m ≠ (w.visited idx).Name := (h idx (le_refl _) (by omega)).symm
    have hit : ruleIter env m w idx = some (w, []) := by
      unfold ruleIter; rw [if_pos h0]
    have hrest := ih b (idx + 1) w (fun j h1 h2 => h j (by omega) (by omega))
    have hn : a + 1 + b = (a + b) + 1 := by omega
    rw [hn]
    simp only [rulesLoop, hit, hrest]
    have hi : idx + 1 + a = idx + (a + 1) := by omega
    rw [hi]
    cases rulesLoop env m b (idx + (a + 1)) w with
    | none => rfl
    | some p => simp

lemma rulesLoop_skip (env : Env) (m : String) (n idx : Nat) (w : Watch)
    (h : ∀ j, idx ≤ j → j < idx + n → (w.visited j).Name ≠ m) :
    rulesLoop env m n idx w = some (w, []) := by
  have := rulesLoop_skip_then env m n 0 idx w h
  simpa [rulesLoop] using this

lemma visited_mem_or_zero (w : Watch) (j : Nat) :
    w.visited j ∈ w.stopRules ++ w.spare ∨ w.visited j = EarlyStoppingRule.zero := by
  unfold Watch.visited
  by_cases h : j < (w.stopRules ++ w.spare).length
  · left; rw [List.getD_eq_getElem _ _ h]; exact List.getElem_mem _
  · right; exact List.getD_eq_default _ _ (by omega)

lemma visited_split (w : Watch) (a b : List EarlyStoppingRule) (R : EarlyStoppingRule)
    (m : String) (hw : w.stopRules = a ++ R :: b)
    (ha : ∀ x ∈ a, x.Name ≠ m) (hb : ∀ x ∈ b, x.Name ≠ m) (hsp : w.spare = []) :
    (∀ j, j < a.length → (w.visited j).Name ≠ m) ∧ w.visited a.length = R ∧
      (∀ j, a.length < j → j < w.stopRules.length → (w.visited j).Name ≠ m) := by
  unfold Watch.visited
  rw [hsp, List.append_nil, hw]
  refine ⟨?_, ?_, ?_⟩
  · intro j hj
    rw [List.getD_append _ _ _ _ hj, List.getD_eq_getElem _ _ hj]
    exact ha _ (List.getElem_mem _)
  · rw [List.getD_append_right _ _ _ _ (le_refl _)]; simp
  · intro j h1 h2
    rw [List.getD_append_right _ _ _ _ (by omega)]
    obtain ⟨k, hk⟩ : ∃ k, j - a.length = k + 1 := ⟨j - a.length - 1, by omega⟩
    rw [hk, List.getD_cons_succ]
    have hkb : k < b.length := by simp at h2; omega
    rw [List.getD_eq_getElem _ _ hkb]
    exact hb _ (List.getElem_mem _)

lemma unique_split (rs : List EarlyStoppingRule) (m : String) (R : EarlyStoppingRule)
    (hR : rs.filter (fun r => decide (r.Name = m)) = [R]) :
    R.Name = m ∧ ∃ a b, rs = a ++ R :: b ∧ (∀ x ∈ a, x.Name ≠ m) ∧ (∀ x ∈ b, x.Name ≠ m) := by
  obtain ⟨a, b, h1, h2, h3, h4⟩ := List.filter_eq_cons_iff.mp hR
  refine ⟨by simpa using h3, a, b, h1, ?_, ?_⟩
  · intro x hx; simpa using h2 x hx
  · intro x hx
    have := List.filter_eq_nil_iff.mp h4 x hx
    simpa using this

/-- One observation of a metric that exactly one live rule is named after: either the
step counter makes the loop skip the rule and nothing but the counter and the best
objective value moves, or the rule is compared with the value. -/
lemma observe_unique (env : Env) (w : Watch) (m : String) (v : F64) (R : EarlyStoppingRule)
    (hR : w.stopRules.filter (fun r => decide (r.Name = m)) = [R]) :
    ((reduceSteps m (objStep env m { w with spare := [], metricValue := v })).2 = true →
      observe env w m v
        = some ((reduceSteps m (objStep env m { w with spare := [], metricValue := v })).1, [])) ∧
    ((reduceSteps m (objStep env m { w with spare := [], metricValue := v })).2 = false →
      ∃ w2 evs e, observe env w m v = some (w2, evs) ∧ e ∈ evs ∧ e.rule = R ∧
        e.metricValue
          = (reduceSteps m (objStep env m { w with spare := [], metricValue := v })).1.metricValue ∧
        e.ruleValue = (env.parseFloat R.Value).1 ∧
        (m ≠ "" → evs = [e] ∧
          w2.metricStartStep
            = (reduceSteps m
                (objStep env m { w with spare := [], metricValue := v })).1.metricStartStep)) := by
  obtain ⟨hRn, a, b, hab, ha, hb⟩ := unique_split w.stopRules m R hR
  set ws : Watch := { w with spare := [], metricValue := v } with hws
  obtain ⟨v1, v2, v3⟩ := visited_split ws a b R m hab ha hb rfl
  have hlen : w.stopRules.length = a.length + (b.length + 1) := by rw [hab]; simp
  have hstart : observe env w m v = rulesLoop env m (b.length + 1) a.length ws := by
    unfold observe
    rw [hlen, rulesLoop_skip_then env m a.length (b.length + 1) 0 ws
      (fun j _ h2 => v1 j (by omega))]
    simp
  obtain ⟨o1, o2, o3⟩ := objStep_fields env m ws
  obtain ⟨r1, r2, r3, r4, r5⟩ := reduceSteps_fields m (objStep env m ws)
  have hname : ¬ m ≠ (ws.visited a.length).Name := by rw [v2, hRn]; simp
  constructor
  · intro hskip
    have hit : ruleIter env m ws a.length = some ((reduceSteps m (objStep env m ws)).1, []) := by
      unfold ruleIter; rw [if_neg hname, if_pos hskip]
    have hrest : rulesLoop env m b.length (a.length + 1) (reduceSteps m (objStep env m ws)).1
        = some ((reduceSteps m (objStep env m ws)).1, []) := by
      apply rulesLoop_skip
      intro j h1 h2
      have : (reduceSteps m (objStep env m ws)).1.visited j = ws.visited j := by
        unfold Watch.visited; rw [r1, r2, o1, o2]
      rw [this]
      exact v3 j (by omega) (by show j < w.stopRules.length; omega)
    rw [hstart]
    simp only [rulesLoop, hit, hrest, List.append_nil]
  · intro hskip
    have hs2 : (reduceSteps m (objStep env m ws)).1.spareZero := by
      unfold Watch.spareZero; rw [r2, o2]; intro r hr; simp [hws] at hr
    have hv : (reduceSteps m (objStep env m ws)).1.visited a.length = R := by
      unfold Watch.visited; rw [r1, r2, o1, o2]; exact v2
    obtain ⟨w1, e, he, hz, hrule, hval, hrv, hm, -, -, hcase⟩ :=
      applyRule_spec env (reduceSteps m (objStep env m ws)).1 a.length hs2
    rw [hv] at he hrule hrv
    have hit : ruleIter env m ws a.length = some (w1, [e]) := by
      unfold ruleIter; rw [if_neg hname, if_neg (by simp [hskip]), v2]; exact he
    obtain ⟨w2, e2, h2, -⟩ := rulesLoop_spec env m b.length (a.length + 1) w1 hz
    refine ⟨w2, e :: e2, e, ?_, List.mem_cons_self _ _, hrule, hval, hrv, ?_⟩
    · rw [hstart]; simp only [rulesLoop, hit, h2, List.singleton_append]
    · intro hne
      have hrest : rulesLoop env m b.length (a.length + 1) w1 = some (w1, []) := by
        apply rulesLoop_skip
        intro j h1 h2
        rcases hcase with ⟨-, c1, c2⟩ | ⟨-, hlt, hdel, c2⟩
        · have : w1.visited j = ws.visited j := by
            unfold Watch.visited; rw [c1, c2, r1, r2, o1, o2]
          rw [this]
          exact v3 j (by omega) (by show j < w.stopRules.length; omega)
        · rcases visited_mem_or_zero w1 j with hmem | hzero
          · rw [c2, r2, o2] at hmem
            rw [r1, o1] at hdel hlt
            obtain ⟨out, hout, -, hperm⟩ := deleteStopRule_perm ws.stopRules a.length hlt
            rw [hdel] at hout
            cases hout
            rcases List.mem_append.mp hmem with h3 | h3
            · have h4 := hperm.subset h3
              have h5 : ws.stopRules.eraseIdx a.length = a ++ b := by
                show w.stopRules.eraseIdx a.length = a ++ b
                rw [hab, List.eraseIdx_append_of_length_le (le_refl _)]
                simp
              rw [h5] at h4
              rcases List.mem_append.mp h4 with h6 | h6
              · exact ha _ h6
              · exact hb _ h6
            · simp only [hws, List.mem_singleton] at h3
              rw [h3]; exact fun h => hne h.symm
          · rw [hzero]; exact fun h => hne h.symm
      rw [hrest] at h2
      cases h2
      exact ⟨rfl, hm⟩

lemma initFold_other (m : String) :
    ∀ (rs : List EarlyStoppingRule) (f0 : String → Option Int), (∀ x ∈ rs, x.Name ≠ m) →
      (rs.foldl setStartStep f0) m = f0 m := by
  intro rs
  induction rs with
  | nil => intro f0 _; rfl
  | cons r rest ih =>
    intro f0 h
    rw [List.foldl_cons, ih _ (fun x hx => h x (List.mem_cons_of_mem _ hx))]
    have hr : m ≠ r.Name := (h r (List.mem_cons_self _ _)).symm
    unfold setStartStep
    split
    · simp [Function.update, hr]
    · rfl

lemma initStartStep_unique (rules : List EarlyStoppingRule) (R : EarlyStoppingRule)
    (hR : rules.filter (fun r => decide (r.Name = R.Name)) = [R]) :
    initStartStep rules R.Name = if R.StartStep ≠ 0 then some R.StartStep else none := by
  obtain ⟨-, a, b, hab, ha, hb⟩ := unique_split rules R.Name R hR
  unfold initStartStep
  rw [hab, List.foldl_append, List.foldl_cons, initFold_other R.Name b _ hb]
  unfold setStartStep
  split
  · simp [Function.update]
  · exact initFold_other R.Name a _ ha

lemma reduceSteps_some (m : String) (w : Watch) (c : Int) (h : w.metricStartStep m = some c) :
    (reduceSteps m w).2 = decide (wrapInt64 (c - 1) ≠ 0) ∧
      (reduceSteps m w).1.metricStartStep m = some (wrapInt64 (c - 1)) := by
  unfold reduceSteps
  rw [h]
  simp [Function.update]

lemma reduceSteps_none (m : String) (w : Watch) (h : w.metricStartStep m = none) :
    reduceSteps m w = (w, false) := by
  unfold reduceSteps
  rw [h]

lemma wrapInt64_small (x : Int) (h1 : -9223372036854775808 ≤ x) (h2 : x < 9223372036854775808) :
    wrapInt64 x = x := by
  unfold wrapInt64; omega

lemma countNamed_cons (m : String) (o : String × F64) (rest : List (String × F64)) :
    countNamed m (o :: rest) = (if o.1 = m then 1 else 0) + countNamed m rest := by
  unfold countNamed
  by_cases h : o.1 = m
  · simp [h]; omega
  · simp [h]

/-- While fewer than `c` observations of the metric of `R` have been seen, where `c` is
its step counter, `R` is never compared and the counter loses one per observation of
that metric. -/
lemma steps_before (env : Env) (R : EarlyStoppingRule) :
    ∀ (pre : List (String × F64)) (w : Watch) (c : Int),
      w.stopRules.filter (fun r => decide (r.Name = R.Name)) = [R] →
      w.metricStartStep R.Name = some c → (countNamed R.Name pre : Int) < c →
      c < 9223372036854775808 →
      ∃ w1 evss, observeAll env w pre = some (w1, evss) ∧
        w1.stopRules.filter (fun r => decide (r.Name = R.Name)) = [R] ∧
        w1.metricStartStep R.Name = some (c - countNamed R.Name pre) ∧
        ∀ es ∈ evss, ∀ e ∈ es, e.rule ≠ R := by
  intro pre
  induction pre with
  | nil =>
    intro w c hR hc _ _
    exact ⟨w, [], rfl, hR, by simpa [countNamed] using hc, by simp⟩
  | cons o rest ih =>
    intro w c hR hc hlt hmax
    rw [countNamed_cons] at hlt ⊢
    by_cases ho : o.1 = R.Name
    · rw [if_pos ho] at hlt ⊢
      have hcnt : (0 : Int) ≤ countNamed R.Name rest := Int.natCast_nonneg _
      obtain ⟨o1, o2, o3⟩ := objStep_fields env R.Name
        { w with spare := [], metricValue := o.2 }
      have hc2 : (objStep env R.Name { w with spare := [], metricValue := o.2 }).metricStartStep
          R.Name = some c := by rw [o3]; exact hc
      obtain ⟨s1, s2⟩ := reduceSteps_some R.Name _ c hc2
      have hwrap : wrapInt64 (c - 1) = c - 1 := wrapInt64_small _ (by push_cast at hlt; omega)
        (by omega)
      have hskip : (reduceSteps R.Name
          (objStep env R.Name { w with spare := [], metricValue := o.2 })).2 = true := by
        rw [s1, hwrap]; simp; push_cast at hlt; omega
      have hobs := (observe_unique env w R.Name o.2 R hR).1 hskip
      obtain ⟨r1, -⟩ := reduceSteps_fields R.Name
        (objStep env R.Name { w with spare := [], metricValue := o.2 })
      obtain ⟨w1, evss, h1, h2, h3, h4⟩ := ih _ (c - 1)
        (by rw [r1, o1]; exact hR) (by rw [s2, hwrap]) (by push_cast at hlt; omega) (by omega)
      refine ⟨w1, [] :: evss, ?_, h2, ?_, ?_⟩
      · simp only [observeAll, ho, hobs, h1]
      · rw [h3]; congr 1; push_cast; omega
      · intro es hes e he
        rcases List.mem_cons.mp hes with h | h
        · rw [h] at he; simp at he
        · exact h4 es h e he
    · rw [if_neg ho] at hlt ⊢
      obtain ⟨w0, evs, hobs, -, -, -, p4, p5, -, p7⟩ := observe_spec env w o.1 o.2
      have hR0 : w0.stopRules.filter (fun r => decide (r.Name = R.Name)) = [R] := by
        have := p4 R.Name (fun h => ho h.symm)
        rw [hR] at this
        exact List.perm_singleton.mp this
      obtain ⟨w1, evss, h1, h2, h3, h4⟩ := ih w0 c hR0
        (by rw [p5 R.Name (fun h => ho h.symm)]; exact hc) (by simpa using hlt) hmax
      refine ⟨w1, evs :: evss, ?_, h2, ?_, ?_⟩
      · simp only [observeAll, hobs, h1]
      · rw [h3]; congr 1; push_cast; omega
      · intro es hes e he
        rcases List.mem_cons.mp hes with h | h
        · rw [h] at he
          intro heq
          apply ho
          rw [← p7 e he, heq]
        · exact h4 es h e he

lemma others_before (env : Env) (R : EarlyStoppingRule) :
    ∀ (pre : List (String × F64)) (w : Watch),
      w.stopRules.filter (fun r => decide (r.Name = R.Name)) = [R] →
      countNamed R.Name pre = 0 →
      ∃ w1 evss, observeAll env w pre = some (w1, evss) ∧
        w1.stopRules.filter (fun r => decide (r.Name = R.Name)) = [R] ∧
        w1.metricStartStep R.Name = w.metricStartStep R.Name ∧
        ∀ es ∈ evss, ∀ e ∈ es, e.rule ≠ R := by
  intro pre
  induction pre with
  | nil => intro w hR _; exact ⟨w, [], rfl, hR, rfl, by simp⟩
  | cons o rest ih =>
    intro w hR hcnt
    rw [countNamed_cons] at hcnt
    have ho : o.1 ≠ R.Name := by
      intro h; rw [if_pos h] at hcnt; omega
    rw [if_neg ho] at hcnt
    obtain ⟨w0, evs, hobs, -, -, -, p4, p5, -, p7⟩ := observe_spec env w o.1 o.2
    have hR0 : w0.stopRules.filter (fun r => decide (r.Name = R.Name)) = [R] := by
      have := p4 R.Name (fun h => ho h.symm)
      rw [hR] at this
      exact List.perm_singleton.mp this
    obtain ⟨w1, evss, h1, h2, h3, h4⟩ := ih w0 hR0 (by omega)
    refine ⟨w1, evs :: evss, ?_, h2, ?_, ?_⟩
    · simp only [observeAll, hobs, h1]
    · rw [h3, p5 R.Name (fun h => ho h.symm)]
    · intro es hes e he
      rcases List.mem_cons.mp hes with h | h
      · rw [h] at he
        intro heq
        apply ho
        rw [← p7 e he, heq]
      · exact h4 es h e he

/-- Where the step counter does work: a rule with start step `k > 0` that is the only
rule of the set named after its metric is not compared on any of the first `k - 1` observations of that
metric, each of which takes one off the step counter of the metric, and it is compared
on the `k`-th observation of the metric, when the counter reaches 0. The start step is
a Go `int`, hence below `2^63`. -/
theorem start_step_counts_observations (env : Env) (rules : stopRulesFlag)
    (R : EarlyStoppingRule) (pre : List (String × F64)) (v : F64)
    (hR : rules.filter (fun r => decide (r.Name = R.Name)) = [R])
    (hpos : 0 < R.StartStep) (hmax : R.StartStep < 9223372036854775808)
    (hj : (countNamed R.Name pre : Int) < R.StartStep) :
    ∃ w1 evss w2 evs, observeAll env (Watch.init rules) pre = some (w1, evss) ∧
      (∀ es ∈ evss, ∀ e ∈ es, e.rule ≠ R) ∧
      w1.metricStartStep R.Name = some (R.StartStep - countNamed R.Name pre) ∧
      observe env w1 R.Name v = some (w2, evs) ∧
      ((countNamed R.Name pre : Int) + 1 < R.StartStep →
        evs = [] ∧
        w2.metricStartStep R.Name = some (R.StartStep - countNamed R.Name pre - 1)) ∧
      ((countNamed R.Name pre : Int) + 1 = R.StartStep →
        (∃ e ∈ evs, e.rule = R ∧ e.ruleValue = (env.parseFloat R.Value).1) ∧
        (R.Name ≠ "" → w2.metricStartStep R.Name = some 0)) := by
  have hinit : (Watch.init rules).metricStartStep R.Name = some R.StartStep := by
    show initStartStep rules R.Name = some R.StartStep
    rw [initStartStep_unique rules R hR, if_pos (by omega)]
  obtain ⟨w1, evss, h1, h2, h3, h4⟩ :=
    steps_before env R pre (Watch.init rules) R.StartStep hR hinit hj hmax
  have hcnt : (0 : Int) ≤ countNamed R.Name pre := Int.natCast_nonneg _
  obtain ⟨o1, o2, o3⟩ := objStep_fields env R.Name { w1 with spare := [], metricValue := v }
  have hc2 : (objStep env R.Name { w1 with spare := [], metricValue := v }).metricStartStep
      R.Name = some (R.StartStep - countNamed R.Name pre) := by rw [o3]; exact h3
  obtain ⟨s1, s2⟩ := reduceSteps_some R.Name _ _ hc2
  have hwrap : wrapInt64 (R.StartStep - countNamed R.Name pre - 1)
      = R.StartStep - countNamed R.Name pre - 1 := wrapInt64_small _ (by omega) (by omega)
  rw [hwrap] at s1 s2
  obtain ⟨u1, u2⟩ := observe_unique env w1 R.Name v R h2
  by_cases hlast : (countNamed R.Name pre : Int) + 1 = R.StartStep
  · have hskip : (reduceSteps R.Name
        (objStep env R.Name { w1 with spare := [], metricValue := v })).2 = false := by
      rw [s1]; simp; omega
    obtain ⟨w2, evs, e, hobs, hmem, hrule, -, hrv, hne⟩ := u2 hskip
    refine ⟨w1, evss, w2, evs, h1, h4, h3, hobs, fun h => by omega, fun _ => ?_⟩
    refine ⟨⟨e, hmem, hrule, hrv⟩, fun hn => ?_⟩
    rw [(hne hn).2, s2]; congr 1; omega
  · have hskip : (reduceSteps R.Name
        (objStep env R.Name { w1 with spare := [], metricValue := v })).2 = true := by
      rw [s1]; simp; omega
    refine ⟨w1, evss, _, [], h1, h4, h3, u1 hskip, fun _ => ⟨rfl, s2⟩, fun h => absurd h hlast⟩

/-- Claim C3 (amended): a rule with start step 0 that is the only rule of the set named after
its metric is compared with its threshold on the very first observation of that
metric, whatever the other rules of the set and the earlier observations are. -/
theorem C3_first_observation_compares (env : Env) (rules : stopRulesFlag)
    (R : EarlyStoppingRule) (pre : List (String × F64)) (v : F64)
    (hR : rules.filter (fun r => decide (r.Name = R.Name)) = [R])
    (h0 : R.StartStep = 0) (hpre : countNamed R.Name pre = 0) :
    ∃ w1 evss w2 evs, observeAll env (Watch.init rules) pre = some (w1, evss) ∧
      (∀ es ∈ evss, ∀ e ∈ es, e.rule ≠ R) ∧
      observe env w1 R.Name v = some (w2, evs) ∧
      ∃ e ∈ evs, e.rule = R ∧ e.ruleValue = (env.parseFloat R.Value).1 ∧
        e.metricValue = (objStep env R.Name { w1 with spare := [], metricValue := v }).metricValue := by
  have hinit : (Watch.init rules).metricStartStep R.Name = none := by
    show initStartStep rules R.Name = none
    rw [initStartStep_unique rules R hR, if_neg (by simp [h0])]
  obtain ⟨w1, evss, h1, h2, h3, h4⟩ := others_before env R pre (Watch.init rules) hR hpre
  obtain ⟨o1, o2, o3⟩ := objStep_fields env R.Name { w1 with spare := [], metricValue := v }
  have hnone : (objStep env R.Name { w1 with spare := [], metricValue := v }).metricStartStep
      R.Name = none := by rw [o3]; show w1.metricStartStep R.Name = none; rw [h3, hinit]
  have hred := reduceSteps_none R.Name _ hnone
  obtain ⟨-, u2⟩ := observe_unique env w1 R.Name v R h2
  obtain ⟨w2, evs, e, hobs, hmem, hrule, hval, hrv, -⟩ := u2 (by rw [hred])
  rw [hred] at hval
  exact ⟨w1, evss, w2, evs, h1, h4, hobs, e, hmem, hrule, hrv, hval⟩

/-! ## The best objective value -/

lemma F64.lt_irrefl (a : F64) : F64.lt a a = false := by
  cases a <;> simp [F64.lt]

lemma F64.lt_asymm (a b : F64) (h : F64.lt a b = true) : F64.lt b a = false := by
  cases a <;> cases b <;> simp [F64.lt] at h ⊢
  omega

lemma F64.lt_trans (a b c : F64) (h1 : F64.lt a b = true) (h2 : F64.lt b c = true) :
    F64.lt a c = true := by
  cases a <;> cases b <;> cases c <;> simp [F64.lt] at h1 h2 ⊢
  omega

lemma optimalOf_same (t : String) (b : F64) : optimalOf t (some b) b = b := by
  unfold optimalOf
  simp only []
  split
  · rfl
  · split <;> rfl

lemma optimalOf_max (o v : F64) : optimalOf ObjectiveTypeMaximize (some o) v = F64.max o v := by
  unfold optimalOf F64.max F64.gt
  by_cases h : F64.lt o v = true
  · simp [h]
  · simp [h, ObjectiveTypeMaximize, ObjectiveTypeMinimize]

lemma optimalOf_min (o v : F64) : optimalOf ObjectiveTypeMinimize (some o) v = F64.min o v := by
  unfold optimalOf F64.min
  by_cases h : F64.lt v o = true
  · simp [h, ObjectiveTypeMaximize, ObjectiveTypeMinimize]
  · simp [h, ObjectiveTypeMaximize, ObjectiveTypeMinimize]

/-- One iteration of the range loop for the objective metric: once the best value `b`
of this observation is in place every comparison is made with `b`, and until then the
variables are those of the start of the loop. -/
lemma ruleIter_best (env : Env) (b v : F64) (opt0 : Option F64)
    (rs0 : List EarlyStoppingRule) (hb : optimalOf env.objType opt0 v = b)
    (w : Watch) (idx : Nat) (hs : w.spareZero)
    (h : (w.optimalObjValue = some b ∧ w.metricValue = b) ∨
      (w.optimalObjValue = opt0 ∧ w.metricValue = v ∧ w.stopRules = rs0 ∧ w.spare = [])) :
    ∃ w1 evs, ruleIter env env.objMetric w idx = some (w1, evs) ∧ w1.spareZero ∧
      (∀ e ∈ evs, e.metricValue = b) ∧
      ((w.optimalObjValue = some b ∧ w.metricValue = b) →
        (w1.optimalObjValue = some b ∧ w1.metricValue = b)) ∧
      ((w1.optimalObjValue = some b ∧ w1.metricValue = b) ∨
        ((w1.optimalObjValue = opt0 ∧ w1.metricValue = v ∧ w1.stopRules = rs0 ∧ w1.spare = []) ∧
          (rs0.getD idx EarlyStoppingRule.zero).Name ≠ env.objMetric)) := by
  by_cases hname : env.objMetric ≠ (w.visited idx).Name
  · refine ⟨w, [], by unfold ruleIter; rw [if_pos hname], hs, by simp, fun hB => hB, ?_⟩
    rcases h with h | h
    · exact Or.inl h
    · refine Or.inr ⟨h, ?_⟩
      have : w.visited idx = rs0.getD idx EarlyStoppingRule.zero := by
        unfold Watch.visited; rw [h.2.2.1, h.2.2.2, List.append_nil]
      rw [← this]; exact hname.symm
  · have hobj : objStep env env.objMetric w = calcOptimal env w := by simp [objStep]
    have hB : (calcOptimal env w).optimalObjValue = some b ∧ (calcOptimal env w).metricValue = b := by
      have : optimalOf env.objType w.optimalObjValue w.metricValue = b := by
        rcases h with ⟨h1, h2⟩ | ⟨h1, h2, -⟩
        · rw [h1, h2]; exact optimalOf_same _ _
        · rw [h1, h2]; exact hb
      simp [calcOptimal, this]
    obtain ⟨o1, o2, o3⟩ := objStep_fields env env.objMetric w
    obtain ⟨r1, r2, r3, r4, r5⟩ := reduceSteps_fields env.objMetric (objStep env env.objMetric w)
    have r3b : (reduceSteps env.objMetric (objStep env env.objMetric w)).1.optimalObjValue
        = some b := by rw [r3, hobj, hB.1]
    have r4b : (reduceSteps env.objMetric (objStep env env.objMetric w)).1.metricValue = b := by
      rw [r4, hobj, hB.2]
    have hs2 : (reduceSteps env.objMetric (objStep env env.objMetric w)).1.spareZero := by
      unfold Watch.spareZero; rw [r2, o2]; exact hs
    by_cases hskip : (reduceSteps env.objMetric (objStep env env.objMetric w)).2 = true
    · exact ⟨_, [], by unfold ruleIter; rw [if_neg hname, if_pos hskip], hs2, by simp,
        fun _ => ⟨r3b, r4b⟩, Or.inl ⟨r3b, r4b⟩⟩
    · have hv : (reduceSteps env.objMetric (objStep env env.objMetric w)).1.visited idx
          = w.visited idx := by
        unfold Watch.visited; rw [r1, r2, o1, o2]
      obtain ⟨w1, e, he, hz, -, hval, -, -, ho, hmv, -⟩ :=
        applyRule_spec env (reduceSteps env.objMetric (objStep env env.objMetric w)).1 idx hs2
      rw [hv] at he
      have hB1 : w1.optimalObjValue = some b ∧ w1.metricValue = b :=
        ⟨by rw [ho, r3b], by rw [hmv, r4b]⟩
      refine ⟨w1, [e], by unfold ruleIter; rw [if_neg hname, if_neg hskip]; exact he, hz, ?_,
        fun _ => hB1, Or.inl hB1⟩
      intro e2 he2
      rw [List.mem_singleton] at he2
      rw [he2, hval, r4b]

lemma rulesLoop_best (env : Env) (b v : F64) (opt0 : Option F64)
    (rs0 : List EarlyStoppingRule) (hb : optimalOf env.objType opt0 v = b) :
    ∀ (n idx : Nat) (w : Watch), w.spareZero →
      ((w.optimalObjValue = some b ∧ w.metricValue = b) ∨
        (w.optimalObjValue = opt0 ∧ w.metricValue = v ∧ w.stopRules = rs0 ∧ w.spare = [])) →
      ∃ w1 evs, rulesLoop env env.objMetric n idx w = some (w1, evs) ∧
        (∀ e ∈ evs, e.metricValue = b) ∧
        ((w.optimalObjValue = some b ∧ w.metricValue = b) →
          (w1.optimalObjValue = some b ∧ w1.metricValue = b)) ∧
        ((w1.optimalObjValue = some b ∧ w1.metricValue = b) ∨
          ∀ j, idx ≤ j → j < idx + n →
            (rs0.getD j EarlyStoppingRule.zero).Name ≠ env.objMetric) := by
  intro n
  induction n with
  | zero =>
    intro idx w _ h
    refine ⟨w, [], rfl, by simp, fun hB => hB, ?_⟩
    rcases h with h | _
    · exact Or.inl h
    · exact Or.inr (fun j h1 h2 => by omega)
  | succ n ih =>
    intro idx w hs h
    obtain ⟨w1, e1, h1, hz, hv1, hk1, hc⟩ := ruleIter_best env b v opt0 rs0 hb w idx hs h
    have hc2 : (w1.optimalObjValue = some b ∧ w1.metricValue = b) ∨
        (w1.optimalObjValue = opt0 ∧ w1.metricValue = v ∧ w1.stopRules = rs0 ∧ w1.spare = []) := by
      rcases hc with hc | hc
      · exact Or.inl hc
      · exact Or.inr hc.1
    obtain ⟨w2, e2, h2, hv2, hk2, hfin⟩ := ih (idx + 1) w1 hz hc2
    refine ⟨w2, e1 ++ e2, by simp only [rulesLoop, h1, h2], ?_, fun hB => hk2 (hk1 hB), ?_⟩
    · intro e he
      rcases List.mem_append.mp he with h3 | h3
      · exact hv1 e h3
      · exact hv2 e h3
    · rcases hc with hc | hc
      · exact Or.inl (hk2 hc)
      · rcases hfin with hfin | hfin
        · exact Or.inl hfin
        · refine Or.inr (fun j h4 h5 => ?_)
          by_cases hj : j = idx
          · rw [hj]; exact hc.2
          · exact hfin j (by omega) (by omega)

/-- One observation of the objective metric while a live rule is named after it: the
best value is updated from the value observed, and every comparison of this
observation is made with the new best value. -/
lemma observe_objective (env : Env) (w : Watch) (v : F64)
    (hlive : ∃ R ∈ w.stopRules, R.Name = env.objMetric) :
    ∃ w1 evs, observe env w env.objMetric v = some (w1, evs) ∧
      w1.optimalObjValue = some (optimalOf env.objType w.optimalObjValue v) ∧
      ∀ e ∈ evs, e.metricValue = optimalOf env.objType w.optimalObjValue v := by
  have hs : ({ w with spare := [], metricValue := v } : Watch).spareZero := by
    intro r hr; simp at hr
  obtain ⟨w1, evs, h1, h2, -, h3⟩ := rulesLoop_best env _ v w.optimalObjValue w.stopRules rfl
    w.stopRules.length 0 { w with spare := [], metricValue := v } hs
    (Or.inr ⟨rfl, rfl, rfl, rfl⟩)
  refine ⟨w1, evs, h1, ?_, h2⟩
  rcases h3 with h3 | h3
  · exact h3.1
  · exfalso
    obtain ⟨R, hR, hn⟩ := hlive
    obtain ⟨i, hi, hget⟩ := List.getElem_of_mem hR
    have := h3 i (Nat.zero_le _) (by omega)
    rw [List.getD_eq_getElem _ _ hi, hget] at this
    exact this hn

lemma objValues_cons (env : Env) (o : String × F64) (rest : List (String × F64)) :
    objValues env (o :: rest)
      = if o.1 = env.objMetric then o.2 :: objValues env rest else objValues env rest := by
  unfold objValues
  by_cases h : o.1 = env.objMetric
  · simp [h]
  · simp [h]

lemma observeAll_total (env : Env) :
    ∀ (pre : List (String × F64)) (w0 : Watch),
      ∃ w1 evss, observeAll env w0 pre = some (w1, evss) := by
  intro pre
  induction pre with
  | nil => intro w0; exact ⟨w0, [], rfl⟩
  | cons o rest ih =>
    intro w0
    obtain ⟨w', evs, hobs, -⟩ := observe_spec env w0 o.1 o.2
    obtain ⟨w1, evss, h1⟩ := ih w'
    exact ⟨w1, evs :: evss, by simp only [observeAll, hobs, h1]⟩

lemma best_seq (env : Env) :
    ∀ (pre : List (String × F64)) (w0 : Watch), objLive env w0 pre = true →
      ∃ w1 evss, observeAll env w0 pre = some (w1, evss) ∧
        w1.optimalObjValue = bestAfter env.objType w0.optimalObjValue (objValues env pre) ∧
        ∀ es ∈ evss, ∀ e ∈ es, e.rule.Name = env.objMetric →
          ∃ p q, objValues env pre = p ++ q ∧ p ≠ [] ∧
            bestAfter env.objType w0.optimalObjValue p = some e.metricValue := by
  intro pre
  induction pre with
  | nil => intro w0 _; exact ⟨w0, [], rfl, rfl, by simp⟩
  | cons o rest ih =>
    intro w0 hl
    simp only [objLive, Bool.and_eq_true, Bool.or_eq_true, decide_eq_true_eq, List.any_eq_true]
      at hl
    obtain ⟨hl1, hl2⟩ := hl
    by_cases ho : o.1 = env.objMetric
    · have hlive : ∃ R ∈ w0.stopRules, R.Name = env.objMetric := by
        rcases hl1 with h | h
        · exact absurd ho h
        · exact h
      obtain ⟨w', evs, hobs, hopt, hval⟩ := observe_objective env w0 o.2 hlive
      rw [ho] at hl2
      rw [hobs] at hl2
      obtain ⟨w1, evss, h1, h2, h3⟩ := ih w' hl2
      refine ⟨w1, evs :: evss, by simp only [observeAll, ho, hobs, h1], ?_, ?_⟩
      · rw [h2, hopt, objValues_cons, if_pos ho]; rfl
      · intro es hes e he hn
        rw [objValues_cons, if_pos ho]
        rcases List.mem_cons.mp hes with h | h
        · rw [h] at he
          exact ⟨[o.2], objValues env rest, rfl, by simp, by rw [hval e he]; rfl⟩
        · obtain ⟨p, q, hpq, -, hb⟩ := h3 es h e he hn
          refine ⟨o.2 :: p, q, by rw [hpq]; rfl, by simp, ?_⟩
          rw [← hb, hopt]; rfl
    · obtain ⟨w', evs, hobs, -, -, -, -, -, p6, p7⟩ := observe_spec env w0 o.1 o.2
      rw [hobs] at hl2
      obtain ⟨w1, evss, h1, h2, h3⟩ := ih w' hl2
      refine ⟨w1, evs :: evss, by simp only [observeAll, hobs, h1], ?_, ?_⟩
      · rw [h2, p6 ho, objValues_cons, if_neg ho]
      · intro es hes e he hn
        rw [objValues_cons, if_neg ho]
        rcases List.mem_cons.mp hes with h | h
        · rw [h] at he
          exact absurd ((p7 e he).symm.trans hn) ho
        · obtain ⟨p, q, hpq, hp, hb⟩ := h3 es h e he hn
          exact ⟨p, q, hpq, hp, by rw [← hb, p6 ho]⟩

lemma objLive_append (env : Env) :
    ∀ (pre : List (String × F64)) (w0 w1 : Watch) (evss : List (List Eval))
      (rest : List (String × F64)),
      objLive env w0 (pre ++ rest) = true → observeAll env w0 pre = some (w1, evss) →
      objLive env w0 pre = true ∧ objLive env w1 rest = true := by
  intro pre
  induction pre with
  | nil =>
    intro w0 w1 evss rest h hobs
    simp only [observeAll, Option.some.injEq, Prod.mk.injEq] at hobs
    rw [← hobs.1]
    exact ⟨rfl, by simpa using h⟩
  | cons o pre ih =>
    intro w0 w1 evss rest h hobs
    simp only [List.cons_append, objLive, Bool.and_eq_true] at h ⊢
    obtain ⟨h1, h2⟩ := h
    cases hob : observe env w0 o.1 o.2 with
    | none => rw [hob] at h2; exact absurd h2 (by simp)
    | some r =>
      obtain ⟨w', evs⟩ := r
      rw [hob] at h2
      simp only [observeAll, hob] at hobs
      cases hrest : observeAll env w' pre with
      | none => rw [hrest] at hobs; exact absurd hobs (by simp)
      | some r2 =>
        obtain ⟨w2, evss2⟩ := r2
        rw [hrest] at hobs
        simp only [Option.some.injEq, Prod.mk.injEq] at hobs
        obtain ⟨a, b⟩ := ih w' w2 evss2 rest h2 hrest
        rw [← hobs.1]
        exact ⟨⟨h1, a⟩, b⟩

lemma bestAfter_max_some (a : F64) (vs : List F64) :
    bestAfter ObjectiveTypeMaximize (some a) vs = some (vs.foldl F64.max a) := by
  induction vs generalizing a with
  | nil => rfl
  | cons v vs ih =>
    unfold bestAfter at ih ⊢
    rw [List.foldl_cons, List.foldl_cons, optimalOf_max, ih]

lemma bestAfter_min_some (a : F64) (vs : List F64) :
    bestAfter ObjectiveTypeMinimize (some a) vs = some (vs.foldl F64.min a) := by
  induction vs generalizing a with
  | nil => rfl
  | cons v vs ih =>
    unfold bestAfter at ih ⊢
    rw [List.foldl_cons, List.foldl_cons, optimalOf_min, ih]

lemma bestAfter_max (vs : List F64) : bestAfter ObjectiveTypeMaximize none vs = runningMax vs := by
  cases vs with
  | nil => rfl
  | cons v vs => exact bestAfter_max_some v vs

lemma bestAfter_min (vs : List F64) : bestAfter ObjectiveTypeMinimize none vs = runningMin vs := by
  cases vs with
  | nil => rfl
  | cons v vs => exact bestAfter_min_some v vs

lemma foldl_max_ge (q : List F64) :
    ∀ a, a = q.foldl F64.max a ∨ F64.lt a (q.foldl F64.max a) = true := by
  induction q with
  | nil => intro a; exact Or.inl rfl
  | cons x q ih =>
    intro a
    rw [List.foldl_cons]
    have hstep : a = F64.max a x ∨ F64.lt a (F64.max a x) = true := by
      unfold F64.max
      by_cases h : F64.lt a x = true
      · rw [if_pos h]; exact Or.inr h
      · rw [if_neg h]; exact Or.inl rfl
    rcases hstep with h1 | h1
    · rw [← h1]; exact ih a
    · rcases ih (F64.max a x) with h2 | h2
      · rw [← h2]; exact Or.inr h1
      · exact Or.inr (F64.lt_trans _ _ _ h1 h2)

lemma foldl_min_le (q : List F64) :
    ∀ a, a = q.foldl F64.min a ∨ F64.lt (q.foldl F64.min a) a = true := by
  induction q with
  | nil => intro a; exact Or.inl rfl
  | cons x q ih =>
    intro a
    rw [List.foldl_cons]
    have hstep : a = F64.min a x ∨ F64.lt (F64.min a x) a = true := by
      unfold F64.min
      by_cases h : F64.lt x a = true
      · rw [if_pos h]; exact Or.inr h
      · rw [if_neg h]; exact Or.inl rfl
    rcases hstep with h1 | h1
    · rw [← h1]; exact ih a
    · rcases ih (F64.min a x) with h2 | h2
      · rw [← h2]; exact Or.inr h1
      · exact Or.inr (F64.lt_trans _ _ _ h2 h1)

lemma runningMax_mono (p q : List F64) (a b : F64) (ha : runningMax p = some a)
    (hb : runningMax (p ++ q) = some b) : F64.lt b a = false := by
  cases p with
  | nil => simp [runningMax] at ha
  | cons v ps =>
    simp only [runningMax, Option.some.injEq, List.cons_append, List.foldl_append] at ha hb
    rw [ha] at hb
    rcases foldl_max_ge q a with h | h
    · rw [← hb, ← h]; exact F64.lt_irrefl a
    · rw [← hb]; exact F64.lt_asymm _ _ h

lemma runningMin_mono (p q : List F64) (a b : F64) (ha : runningMin p = some a)
    (hb : runningMin (p ++ q) = some b) : F64.lt a b = false := by
  cases p with
  | nil => simp [runningMin] at ha
  | cons v ps =>
    simp only [runningMin, Option.some.injEq, List.cons_append, List.foldl_append] at ha hb
    rw [ha] at hb
    rcases foldl_min_le q a with h | h
    · rw [← hb, ← h]; exact F64.lt_irrefl a
    · rw [← hb]; exact F64.lt_asymm _ _ h

/-- Claim C5: at each observation of the objective metric made while a live rule is named
after it, the value compared with the threshold, and kept in `optimalObjValue`, is the
running best of the objective values seen so far, the first being the initial best: the
running maximum under `maximize` and the running minimum under `minimize`. Hence the
value compared is never less than a value compared earlier under `maximize`, and never
greater under `minimize`. -/
theorem C5_compared_value_is_running_best (env : Env) (rules : stopRulesFlag)
    (pre : List (String × F64)) (v : F64)
    (hlive : objLive env (Watch.init rules) (pre ++ [(env.objMetric, v)]) = true) :
    ∃ w1 evss w2 evs, observeAll env (Watch.init rules) pre = some (w1, evss) ∧
      observe env w1 env.objMetric v = some (w2, evs) ∧
      (env.objType = ObjectiveTypeMaximize →
        w2.optimalObjValue = runningMax (objValues env pre ++ [v]) ∧
        (∀ e ∈ evs, some e.metricValue = runningMax (objValues env pre ++ [v])) ∧
        (∀ es ∈ evss, ∀ e0 ∈ es, e0.rule.Name = env.objMetric →
          ∀ e ∈ evs, F64.lt e.metricValue e0.metricValue = false)) ∧
      (env.objType = ObjectiveTypeMinimize →
        w2.optimalObjValue = runningMin (objValues env pre ++ [v]) ∧
        (∀ e ∈ evs, some e.metricValue = runningMin (objValues env pre ++ [v])) ∧
        (∀ es ∈ evss, ∀ e0 ∈ es, e0.rule.Name = env.objMetric →
          ∀ e ∈ evs, F64.lt e0.metricValue e.metricValue = false)) := by
  obtain ⟨w1, evss, h1⟩ := observeAll_total env pre (Watch.init rules)
  obtain ⟨hl1, hl2⟩ := objLive_append env pre _ w1 evss [(env.objMetric, v)] hlive h1
  obtain ⟨w1b, evssb, h1b, hopt, hev⟩ := best_seq env pre (Watch.init rules) hl1
  rw [h1] at h1b
  simp only [Option.some.injEq, Prod.mk.injEq] at h1b
  obtain ⟨hw, hes⟩ := h1b
  subst hw hes
  have hlive2 : ∃ R ∈ w1.stopRules, R.Name = env.objMetric := by
    simp only [objLive, Bool.and_eq_true, Bool.or_eq_true, decide_eq_true_eq,
      List.any_eq_true] at hl2
    rcases hl2.1 with h | h
    · exact absurd rfl h
    · exact h
  obtain ⟨w2, evs, hobs, hopt2, hval⟩ := observe_objective env w1 v hlive2
  have hbest : some (optimalOf env.objType w1.optimalObjValue v)
      = bestAfter env.objType none (objValues env pre ++ [v]) := by
    rw [hopt]
    show _ = bestAfter env.objType (Watch.init rules).optimalObjValue (objValues env pre ++ [v])
    unfold bestAfter
    rw [List.foldl_append]
    rfl
  refine ⟨w1, evss, w2, evs, h1, hobs, ?_, ?_⟩
  · intro ht
    rw [ht] at hbest hev
    rw [bestAfter_max] at hbest
    refine ⟨by rw [hopt2, ht, hbest], fun e he => by rw [hval e he, ht, hbest], ?_⟩
    intro es hes e0 he0 hn e he
    obtain ⟨p, q, hpq, -, hb⟩ := hev es hes e0 he0 hn
    have hb0 : runningMax p = some e0.metricValue := by
      rw [← bestAfter_max]; exact hb
    have hb1 : runningMax (p ++ (q ++ [v])) = some e.metricValue := by
      rw [← List.append_assoc, ← hpq, ← hbest, hval e he, ht]
    exact runningMax_mono p (q ++ [v]) _ _ hb0 hb1
  · intro ht
    rw [ht] at hbest hev
    rw [bestAfter_min] at hbest
    refine ⟨by rw [hopt2, ht, hbest], fun e he => by rw [hval e he, ht, hbest], ?_⟩
    intro es hes e0 he0 hn e he
    obtain ⟨p, q, hpq, -, hb⟩ := hev es hes e0 he0 hn
    have hb0 : runningMin p = some e0.metricValue := by
      rw [← bestAfter_min]; exact hb
    have hb1 : runningMin (p ++ (q ++ [v])) = some e.metricValue := by
      rw [← List.append_assoc, ← hpq, ← hbest, hval e he, ht]
    exact runningMin_mono p (q ++ [v]) _ _ hb0 hb1

/-! ## The claims on concrete runs -/

/-- Claim C1 on the scenario of the specification: with the sole rule `loss < 0.1` the line
`loss=0.5` leaves the rule and enters nothing, the line `loss=0.05` removes the rule
and enters the early-stop block, and the line after that is rejected. -/
theorem C1_trigger_witness :
    (2 < ["loss=0.5", "loss=0.05", "loss=0.01"].length) ∧
    ((watchMetricsFile exEnv [lossRule]
        ["loss=0.5", "loss=0.05", "loss=0.01"]).map
      (fun p => p.2.map (fun r => (r.watch.stopRules, r.triggered))))
      = some [([lossRule], false), ([], true), ([], false)] ∧
    ∃ w rs, watchMetricsFile exEnv [lossRule]
        ["loss=0.5", "loss=0.05", "loss=0.01"] = some (w, rs) ∧
      rs.length = ["loss=0.5", "loss=0.05", "loss=0.01"].length ∧
      (rs.map LineResult.triggered).count true ≤ 1 ∧
      ∀ i, i < ["loss=0.5", "loss=0.05", "loss=0.01"].length →
        ∃ wb rb r, watchMetricsFile exEnv [lossRule]
            (["loss=0.5", "loss=0.05", "loss=0.01"].take i) = some (wb, rb) ∧
          lineIter exEnv wb (["loss=0.5", "loss=0.05", "loss=0.01"].getD i "") = some r ∧
          watchMetricsFile exEnv [lossRule]
            (["loss=0.5", "loss=0.05", "loss=0.01"].take (i + 1)) = some (r.watch, rb ++ [r]) ∧
          rs.get? i = some r ∧
          (r.triggered = true ↔ wb.stopRules ≠ [] ∧ r.watch.stopRules = []) ∧
          (wb.stopRules = [] → r.watch = wb ∧ r.evals = [] ∧ r.triggered = false) :=
  ⟨by decide, by decide,
    C1_trigger_iff_rules_become_empty exEnv [lossRule]
      ["loss=0.5", "loss=0.05", "loss=0.01"]⟩

/-- Claim C2 fails on the code: the decrement of the step counter sits inside the loop
over the rules, so one report of `acc` takes the counter once per rule named `acc`. Of
two rules on `acc` that both have start step 2, the second is compared, and removed,
on the first report of `acc`, which takes the counter from 2 to 1 and from 1 to 0. -/
theorem C2_second_rule_compared_on_first_report :
    ((lineIter exEnv
        (Watch.init [accLowRule 2, accRule 2]) "acc=0.95").map
      (fun r => (r.evals.map Eval.rule, r.watch.stopRules, r.watch.metricStartStep "acc")))
      = some ([accRule 2], [accLowRule 2], some 0) := by
  decide

lemma digitsValue_eq :
    ∀ (ds : List Char) (acc : Nat),
      digitsValue ds acc
        = if ds.all Char.isDigit = true then
            some (ds.foldl (fun acc c => acc * 10 + (c.toNat - 48)) acc)
          else none := by
  intro ds
  induction ds with
  | nil => intro acc; simp [digitsValue]
  | cons c cs ih =>
    intro acc
    unfold digitsValue
    by_cases hc : c.isDigit = true
    · rw [if_pos hc, ih]
      simp [hc]
    · rw [if_neg hc]
      simp [hc]

lemma isDigit_le (c : Char) (h : c.isDigit = true) : c.toNat - 48 ≤ 9 := by
  simp only [Char.isDigit, Bool.and_eq_true, decide_eq_true_eq] at h
  have h2 : c.val.toNat ≤ 57 := h.2
  show c.val.toNat - 48 ≤ 9
  omega

lemma digitsFold_ge :
    ∀ (l : List Char) (a : Nat), a ≤ l.foldl (fun acc c => acc * 10 + (c.toNat - 48)) a := by
  intro l
  induction l with
  | nil => intro a; exact le_refl a
  | cons c cs ih =>
    intro a
    rw [List.foldl_cons]
    exact le_trans (by omega) (ih _)

lemma digitsFold_lt :
    ∀ (l : List Char) (a : Nat), l.all Char.isDigit = true →
      l.foldl (fun acc c => acc * 10 + (c.toNat - 48)) a + 1 ≤ (a + 1) * 10 ^ l.length := by
  intro l
  induction l with
  | nil => intro a _; simp
  | cons c cs ih =>
    intro a h
    simp only [List.all_cons, Bool.and_eq_true] at h
    rw [List.foldl_cons, List.length_cons, pow_succ]
    have h1 := ih (a * 10 + (c.toNat - 48)) h.2
    have h2 := isDigit_le c h.1
    have h3 : (a * 10 + (c.toNat - 48) + 1) * 10 ^ cs.length ≤ ((a + 1) * 10) * 10 ^ cs.length :=
      Nat.mul_le_mul_right _ (by omega)
    calc _ ≤ (a * 10 + (c.toNat - 48) + 1) * 10 ^ cs.length := h1
      _ ≤ ((a + 1) * 10) * 10 ^ cs.length := h3
      _ = (a + 1) * (10 ^ cs.length * 10) := by ring

lemma parseUintLoop_spec :
    ∀ (cs : List Char) (n : Nat), n ≤ 18446744073709551615 →
      parseUintLoop cs n
        = if (cs.takeWhile Char.isDigit).foldl (fun acc c => acc * 10 + (c.toNat - 48)) n
              > 18446744073709551615 then .rangeErr
          else if cs.all Char.isDigit = true then
            .ok ((cs.takeWhile Char.isDigit).foldl (fun acc c => acc * 10 + (c.toNat - 48)) n)
          else .syntaxErr := by
  intro cs
  induction cs with
  | nil =>
    intro n hn
    simp only [parseUintLoop, List.takeWhile_nil, List.foldl_nil, List.all_nil, if_true]
    rw [if_neg (by omega)]
  | cons c cs ih =>
    intro n hn
    unfold parseUintLoop
    by_cases hc : c.isDigit = true
    · have hge := digitsFold_ge (cs.takeWhile Char.isDigit) (n * 10 + (c.toNat - 48))
      rw [if_neg (by simp [hc]), List.takeWhile_cons_of_pos hc, List.foldl_cons]
      by_cases h1 : n ≥ 1844674407370955162
      · rw [if_pos h1, if_pos (by omega)]
      · rw [if_neg h1]
        by_cases h2 : n * 10 + (c.toNat - 48) > 18446744073709551615
        · rw [if_pos h2, if_pos (by omega)]
        · rw [if_neg h2, ih _ (by omega)]
          simp [hc]
    · rw [if_pos (by simp [hc]), List.takeWhile_cons_of_neg hc, List.foldl_nil,
        if_neg (by omega), if_neg (by simp [hc])]

lemma length_le_utf8ByteSize_go : ∀ (cs : List Char), cs.length ≤ String.utf8ByteSize.go cs := by
  intro cs
  induction cs with
  | nil => simp [String.utf8ByteSize.go]
  | cons c cs ih =>
    have := Char.utf8Size_pos c
    simp only [String.utf8ByteSize.go, List.length_cons]
    omega

lemma length_le_utf8ByteSize (s : String) : s.data.length ≤ s.utf8ByteSize :=
  length_le_utf8ByteSize_go s.data

lemma unsignedPart_length (cs : List Char) : (unsignedPart cs).length ≤ cs.length := by
  unfold unsignedPart
  split
  · simp
  · exact le_refl _

lemma takeWhile_all (l : List Char) (h : l.all Char.isDigit = true) :
    l.takeWhile Char.isDigit = l := by
  induction l with
  | nil => rfl
  | cons c cs ih =>
    simp only [List.all_cons, Bool.and_eq_true] at h
    rw [List.takeWhile_cons_of_pos h.1, ih h.2]

lemma takeWhile_isDigit_all (l : List Char) : (l.takeWhile Char.isDigit).all Char.isDigit = true := by
  induction l with
  | nil => rfl
  | cons c cs ih =>
    by_cases hc : c.isDigit = true
    · rw [List.takeWhile_cons_of_pos hc]; simp [hc, ih]
    · rw [List.takeWhile_cons_of_neg hc]; rfl

lemma takeWhile_length_le (l : List Char) : (l.takeWhile Char.isDigit).length ≤ l.length := by
  induction l with
  | nil => simp
  | cons c cs ih =>
    by_cases hc : c.isDigit = true
    · rw [List.takeWhile_cons_of_pos hc]; simp; exact ih
    · rw [List.takeWhile_cons_of_neg hc]; simp

lemma leadingDigits_short (s : String) (h : s.utf8ByteSize < 19) :
    leadingDigits s < 1000000000000000000 := by
  have h1 := length_le_utf8ByteSize s
  have h2 := unsignedPart_length s.data
  have h3 := takeWhile_length_le (unsignedPart s.data)
  have h4 := digitsFold_lt ((unsignedPart s.data).takeWhile Char.isDigit) 0
    (takeWhile_isDigit_all _)
  have h5 : 10 ^ ((unsignedPart s.data).takeWhile Char.isDigit).length ≤ 10 ^ 18 :=
    Nat.pow_le_pow_right (by norm_num) (by omega)
  have h6 : (10 : Nat) ^ 18 = 1000000000000000000 := by norm_num
  unfold leadingDigits
  omega

/-- What `strconv.Atoi` returns as value: the bound of `int` on the side of the sign
when the digits at the start already leave the range of `uint64`; else the integer the
string denotes, brought into the range of `int`, when it is a decimal integer; else
0. -/
lemma strconvAtoi_value (s : String) :
    (strconvAtoi s).1
      = if leadingDigits s > 18446744073709551615 then
          (if s.data.head? = some '-' then -9223372036854775808 else 9223372036854775807)
        else
          match decimalInt s with
          | some n => clampInt64 n
          | none => 0 := by
  unfold strconvAtoi
  by_cases hfast : 0 < s.utf8ByteSize ∧ s.utf8ByteSize < 19
  · rw [if_pos hfast]
    have hshort := leadingDigits_short s hfast.2
    rw [if_neg (by omega)]
    unfold atoiFast decimalInt
    by_cases hnil : unsignedPart s.data = []
    · simp [hnil]
    · rw [if_neg hnil, digitsValue_eq]
      by_cases hall : (unsignedPart s.data).all Char.isDigit = true
      · have hv : (unsignedPart s.data).foldl (fun acc c => acc * 10 + (c.toNat - 48)) 0
            = leadingDigits s := by
          unfold leadingDigits; rw [takeWhile_all _ hall]
        simp only [hall, if_true, hnil, ne_eq, not_false_eq_true, and_self, hv]
        unfold clampInt64
        by_cases hneg : s.data.head? = some '-'
        · simp only [hneg, if_true]
          rw [if_neg (by omega), if_neg (by omega)]
        · simp only [hneg, if_false]
          rw [if_neg (by omega), if_neg (by omega)]
      · simp [hall]
  · rw [if_neg hfast]
    unfold parseInt decimalInt
    by_cases h0 : s.data = []
    · simp [h0, leadingDigits, unsignedPart]
    · rw [if_neg h0]
      by_cases hnil : unsignedPart s.data = []
      · simp [hnil, leadingDigits]
      · rw [if_neg hnil, parseUintLoop_spec _ 0 (by omega)]
        show _ = if leadingDigits s > 18446744073709551615 then _ else _
        have hv : (List.takeWhile Char.isDigit (unsignedPart s.data)).foldl
            (fun acc c => acc * 10 + (c.toNat - 48)) 0 = leadingDigits s := rfl
        rw [hv]
        by_cases hover : leadingDigits s > 18446744073709551615
        · simp only [hover, if_true]
          split <;> rfl
        · simp only [hover, if_false]
          by_cases hall : (unsignedPart s.data).all Char.isDigit = true
          · have hv2 : (unsignedPart s.data).foldl (fun acc c => acc * 10 + (c.toNat - 48)) 0
                = leadingDigits s := by
              unfold leadingDigits; rw [takeWhile_all _ hall]
            simp only [hall, if_true, hnil, ne_eq, not_false_eq_true, and_self, hv2]
            unfold clampInt64
            by_cases hneg : s.data.head? = some '-'
            · simp only [hneg, not_true_eq_false, false_and, if_false, true_and, if_true]
              split
              · rw [if_pos (by omega)]
              · rw [if_neg (by omega), if_neg (by omega)]
            · simp only [hneg, not_false_eq_true, true_and, false_and, if_false]
              split
              · rw [if_neg (by omega), if_pos (by omega)]
              · rw [if_neg (by omega), if_neg (by omega)]
          · simp [hall]

/-- Claim C10 (amended): `stopRulesFlag.Set` accepts a value if and only if splitting it
on `;` gives exactly four fields. On acceptance one rule is appended after the rules
already there, with name, threshold value and comparison taken verbatim from fields 1
to 3 and with the start step that `strconv.Atoi` returns for field 4: its integer
value when field 4 is a decimal integer within the range of `int`; the nearest bound
of `int` when it is a decimal integer outside that range, and also when the digits at
its start, after the sign if it has one, already denote a number above the largest
`uint64`, whatever follows them; 0 in every other case. On rejection an error is
returned and the rules are unchanged. -/
theorem C10_set_appends_one_rule (flag : stopRulesFlag) (value : String) :
    ((stopRulesFlag.Set flag value).2 = false ↔ (stringsSplit value).length = 4) ∧
    ((stringsSplit value).length = 4 →
      ∃ rule, stopRulesFlag.Set flag value = (flag ++ [rule], false) ∧
        rule.Name = (stringsSplit value).getD 0 "" ∧
        rule.Value = (stringsSplit value).getD 1 "" ∧
        rule.Comparison = (stringsSplit value).getD 2 "" ∧
        rule.StartStep
          = if leadingDigits ((stringsSplit value).getD 3 "") > 18446744073709551615 then
              (if ((stringsSplit value).getD 3 "").data.head? = some '-' then
                -9223372036854775808
              else 9223372036854775807)
            else
              match decimalInt ((stringsSplit value).getD 3 "") with
              | some n => clampInt64 n
              | none => 0) ∧
    ((stringsSplit value).length ≠ 4 → stopRulesFlag.Set flag value = (flag, true)) := by
  by_cases h : (stringsSplit value).length = 4
  · refine ⟨?_, ?_, fun hn => absurd h hn⟩
    · simp [stopRulesFlag.Set, h]
    · intro _
      refine ⟨⟨(stringsSplit value).getD 0 "", (stringsSplit value).getD 1 "",
        (stringsSplit value).getD 2 "", (strconvAtoi ((stringsSplit value).getD 3 "")).1⟩,
        by simp only [stopRulesFlag.Set, h, ne_eq, not_true_eq_false, if_false],
        rfl, rfl, rfl, ?_⟩
      exact strconvAtoi_value _
  · refine ⟨?_, fun h4 => absurd h4 h, ?_⟩
    · simp [stopRulesFlag.Set, h]
    · intro _
      simp [stopRulesFlag.Set, h]

/-- Claim C10 at the value `acc;0.9;greater;2`: four fields, one rule appended after the
rule already there, with start step 2. -/
theorem C10_set_witness :
    (stringsSplit "acc;0.9;greater;2").length = 4 ∧
    stopRulesFlag.Set [⟨"loss", "0.1", "less", 0⟩] "acc;0.9;greater;2"
      = ([⟨"loss", "0.1", "less", 0⟩, ⟨"acc", "0.9", "greater", 2⟩], false) ∧
    ∃ rule, stopRulesFlag.Set [⟨"loss", "0.1", "less", 0⟩] "acc;0.9;greater;2"
        = ([⟨"loss", "0.1", "less", 0⟩] ++ [rule], false) ∧
      rule.Name = (stringsSplit "acc;0.9;greater;2").getD 0 "" ∧
      rule.Value = (stringsSplit "acc;0.9;greater;2").getD 1 "" ∧
      rule.Comparison = (stringsSplit "acc;0.9;greater;2").getD 2 "" ∧
      rule.StartStep
        = if leadingDigits ((stringsSplit "acc;0.9;greater;2").getD 3 "")
              > 18446744073709551615 then
            (if ((stringsSplit "acc;0.9;greater;2").getD 3 "").data.head? = some '-' then
              -9223372036854775808
            else 9223372036854775807)
          else
            match decimalInt ((stringsSplit "acc;0.9;greater;2").getD 3 "") with
            | some n => clampInt64 n
            | none => 0 :=
  ⟨by decide, by decide,
    (C10_set_appends_one_rule [⟨"loss", "0.1", "less", 0⟩] "acc;0.9;greater;2").2.1
      (by decide)⟩

/-- Claim C10 as stated fails, in two ways. Field 4 of
`acc;0.9;greater;99999999999999999999` is the integer `99999999999999999999`, and the
start step of the appended rule is neither that integer nor 0 but the largest `int`.
Field 4 of `acc;0.9;greater;99999999999999999999x` is not an integer, and the start
step is not 0 but again the largest `int`: `Atoi` meets the overflow before the `x`.
With one digit fewer before the `x` the start step is 0. -/
theorem C10_counterexample :
    decimalInt "99999999999999999999" = some 99999999999999999999 ∧
    strconvAtoi "99999999999999999999" = (9223372036854775807, true) ∧
    stopRulesFlag.Set [] "acc;0.9;greater;99999999999999999999"
      = ([⟨"acc", "0.9", "greater", 9223372036854775807⟩], false) ∧
    decimalInt "99999999999999999999x" = none ∧
    strconvAtoi "99999999999999999999x" = (9223372036854775807, true) ∧
    stopRulesFlag.Set [] "acc;0.9;greater;99999999999999999999x"
      = ([⟨"acc", "0.9", "greater", 9223372036854775807⟩], false) ∧
    stopRulesFlag.Set [] "acc;0.9;greater;9999999999999999999x"
      = ([⟨"acc", "0.9", "greater", 0⟩], false) := by
  decide


/-- The scenario of the specification, two rules of which one has start
step 2 on `acc`: `acc=0.9` takes the counter from 2 to 1 and compares nothing,
`acc=0.95` takes it from 1 to 0 and the rule is compared. -/
theorem start_step_counts_observations_example :
    ([lossRule, accRule 2].filter
        (fun r => decide (r.Name = (accRule 2).Name))
      = [accRule 2]) ∧
    ((watchMetricsFile exEnv [lossRule, accRule 2]
        ["acc=0.9", "acc=0.95"]).map
      (fun p => p.2.map (fun r => (r.evals.map Eval.rule, r.watch.metricStartStep "acc"))))
      = some [([], some 1), ([accRule 2], some 0)] ∧
    ∃ w1 evss w2 evs,
      observeAll exEnv (Watch.init [lossRule, accRule 2])
        [("acc", f64 "0.9")] = some (w1, evss) ∧
      (∀ es ∈ evss, ∀ e ∈ es, e.rule ≠ accRule 2) ∧
      w1.metricStartStep (accRule 2).Name
        = some ((accRule 2).StartStep - countNamed (accRule 2).Name [("acc", f64 "0.9")]) ∧
      observe exEnv w1 "acc" (f64 "0.95") = some (w2, evs) ∧
      ((countNamed "acc" [("acc", f64 "0.9")] : Int) + 1 < 2 →
        evs = [] ∧
        w2.metricStartStep "acc"
          = some (2 - countNamed "acc" [("acc", f64 "0.9")] - 1)) ∧
      ((countNamed "acc" [("acc", f64 "0.9")] : Int) + 1 = 2 →
        (∃ e ∈ evs, e.rule = accRule 2 ∧
          e.ruleValue = (exEnv.parseFloat "0.9").1) ∧
        ("acc" ≠ "" → w2.metricStartStep "acc" = some 0)) :=
  ⟨by decide, by decide,
    start_step_counts_observations exEnv
      [lossRule, accRule 2] (accRule 2)
      [("acc", f64 "0.9")] (f64 "0.95")
      (by decide) (by decide) (by decide) (by decide)⟩

/-- Claim C3 as stated fails, in two ways. A rule on `acc` with start step 0 that shares
its metric with a rule of start step 5 is not compared on the first observation of
`acc`: the step counter of `acc` holds it back. And of two rules on `acc` with start
step 0, the second is not compared on the observation `acc=0.95` that removes the
first: it is moved into the slot of the first, which the loop has passed. -/
theorem C3_counterexample :
    ((lineIter exEnv
        (Watch.init [accLowRule 5, accRule 0]) "acc=0.95").map
      (fun r => (r.evals.map Eval.rule, r.watch.stopRules, r.watch.metricStartStep "acc")))
      = some ([], [accLowRule 5, accRule 0], some 3) ∧
    ((lineIter exEnv
        (Watch.init [accHalfRule, accRule 0]) "acc=0.95").map
      (fun r => (r.evals.map Eval.rule, r.watch.stopRules, r.triggered)))
      = some ([accHalfRule], [accRule 0], false) := by
  decide

/-- Claim C3 on a run: the rule `acc > 0.9` with start step 0, the only rule on `acc`,
is compared on the first observation of `acc`, after an observation of `loss`. -/
theorem C3_first_observation_witness :
    ([lossRule, accRule 0].filter
        (fun r => decide (r.Name = (accRule 0).Name))
      = [accRule 0]) ∧
    countNamed "acc" [("loss", f64 "0.5")] = 0 ∧
    ∃ w1 evss w2 evs,
      observeAll exEnv (Watch.init [lossRule, accRule 0])
        [("loss", f64 "0.5")] = some (w1, evss) ∧
      (∀ es ∈ evss, ∀ e ∈ es, e.rule ≠ accRule 0) ∧
      observe exEnv w1 "acc" (f64 "0.95") = some (w2, evs) ∧
      ∃ e ∈ evs, e.rule = accRule 0 ∧
        e.ruleValue = (exEnv.parseFloat "0.9").1 ∧
        e.metricValue
          = (objStep exEnv "acc"
              { w1 with spare := [], metricValue := f64 "0.95" }).metricValue :=
  ⟨by decide, by decide,
    C3_first_observation_compares exEnv
      [lossRule, accRule 0] (accRule 0)
      [("loss", f64 "0.5")] (f64 "0.95")
      (by decide) (by decide) (by decide)⟩

/-- Claim C4 fails on the code: the rule `acc > 0.9` with start step 1 is compared on
the first observation of `acc`, where it does not hold, and never again. The step
counter goes from 0 to -1 on the second observation and the test `!= 0` skips the
rule, so `acc=0.95` neither compares nor removes it. -/
theorem C4_not_compared_after_start_step :
    ((watchMetricsFile exEnv [accRule 1]
        ["acc=0.5", "acc=0.95", "acc=0.95"]).map
      (fun p => p.2.map
        (fun r => (r.evals.map Eval.rule, r.watch.stopRules, r.watch.metricStartStep "acc",
          r.triggered))))
      = some [([accRule 1], [accRule 1], some 0, false),
          ([], [accRule 1], some (-1), false),
          ([], [accRule 1], some (-2), false)] ∧
    F64.gt (f64 "0.95") (f64 "0.9") = true := by
  decide

/-- Claim C5 on the scenario of the specification: under `maximize` the values
`F1=0.4`, `F1=0.3`, `F1=0.7` are compared as `0.4`, `0.4`, `0.7`. -/
theorem C5_running_best_witness :
    objLive exEnv (Watch.init [f1Rule])
        ([("F1", f64 "0.4"), ("F1", f64 "0.3")]
          ++ [(exEnv.objMetric, f64 "0.7")]) = true ∧
    ((watchMetricsFile exEnv [f1Rule] ["F1=0.4", "F1=0.3", "F1=0.7"]).map
      (fun p => p.2.map (fun r => r.evals.map Eval.metricValue)))
      = some [[f64 "0.4"], [f64 "0.4"], [f64 "0.7"]] ∧
    ∃ w1 evss w2 evs,
      observeAll exEnv (Watch.init [f1Rule])
        [("F1", f64 "0.4"), ("F1", f64 "0.3")] = some (w1, evss) ∧
      observe exEnv w1 exEnv.objMetric (f64 "0.7") = some (w2, evs) ∧
      (exEnv.objType = ObjectiveTypeMaximize →
        w2.optimalObjValue
          = runningMax (objValues exEnv
              [("F1", f64 "0.4"), ("F1", f64 "0.3")]
            ++ [f64 "0.7"]) ∧
        (∀ e ∈ evs, some e.metricValue
          = runningMax (objValues exEnv
              [("F1", f64 "0.4"), ("F1", f64 "0.3")]
            ++ [f64 "0.7"])) ∧
        (∀ es ∈ evss, ∀ e0 ∈ es, e0.rule.Name = exEnv.objMetric →
          ∀ e ∈ evs, F64.lt e.metricValue e0.metricValue = false)) ∧
      (exEnv.objType = ObjectiveTypeMinimize →
        w2.optimalObjValue
          = runningMin (objValues exEnv
              [("F1", f64 "0.4"), ("F1", f64 "0.3")]
            ++ [f64 "0.7"]) ∧
        (∀ e ∈ evs, some e.metricValue
          = runningMin (objValues exEnv
              [("F1", f64 "0.4"), ("F1", f64 "0.3")]
            ++ [f64 "0.7"])) ∧
        (∀ es ∈ evss, ∀ e0 ∈ es, e0.rule.Name = exEnv.objMetric →
          ∀ e ∈ evs, F64.lt e0.metricValue e.metricValue = false)) :=
  ⟨by decide, by decide,
    C5_compared_value_is_running_best exEnv [f1Rule]
      [("F1", f64 "0.4"), ("F1", f64 "0.3")] (f64 "0.7")
      (by decide)⟩

lemma linesLoop_rel (env : Env) :
    ∀ (lines : List String) (w : Watch),
      ∃ w1 rs, linesLoop env w lines = some (w1, rs) ∧
        LineRel w w1 (rs.map LineResult.evals).flatten := by
  intro lines
  induction lines with
  | nil => intro w; exact ⟨w, [], rfl, lineRel_refl w⟩
  | cons l rest ih =>
    intro w
    obtain ⟨r, hr, hrel, -⟩ := lineIter_spec env w l
    obtain ⟨w1, rs, h, hrel2⟩ := ih r.watch
    refine ⟨w1, r :: rs, by simp only [linesLoop, hr, h], ?_⟩
    rw [List.map_cons, List.flatten_cons]
    exact lineRel_trans hrel hrel2

/-- Claim C6: processing log lines never panics and never adds a rule: the live rules
after any lines are among the live rules before them, as a multiset, and fewer by
exactly one per comparison that held. A call `deleteStopRule(rules, idx)` with
`idx < len(rules)` returns the rules other than the one at `idx`, order aside, one
fewer than before; a call with `idx` out of range panics, so every call the loop makes
has `idx < len(rules)`. -/
theorem C6_rules_only_removed (env : Env) (w : Watch) (lines : List String) :
    (∃ w1 rs, linesLoop env w lines = some (w1, rs) ∧
      w1.stopRules.Subperm w.stopRules ∧
      w1.stopRules.length + ((rs.map LineResult.evals).flatten.filter Eval.reached).length
        = w.stopRules.length) ∧
    (∀ (rules : List EarlyStoppingRule) (idx : Nat), idx < rules.length →
      ∃ out, deleteStopRule rules idx = some out ∧ out.length = rules.length - 1 ∧
        out.Perm (rules.eraseIdx idx)) ∧
    (∀ (rules : List EarlyStoppingRule) (idx : Nat), rules.length ≤ idx →
      deleteStopRule rules idx = none) := by
  refine ⟨?_, deleteStopRule_perm, ?_⟩
  · obtain ⟨w1, rs, h, h1, h2⟩ := linesLoop_rel env lines w
    exact ⟨w1, rs, h, h1, h2⟩
  · intro rules idx h
    simp [deleteStopRule, h]

/-- Claim C6 on a run with the rules `loss < 0.1` and `acc > 0.9`: the line `loss=0.05`
removes the first rule by `deleteStopRule(rules, 0)`, which leaves the second. -/
theorem C6_rules_only_removed_witness :
    (0 < [lossRule, accRule 0].length) ∧
    deleteStopRule [lossRule, accRule 0] 0 = some [accRule 0] ∧
    ((∃ w1 rs, linesLoop exEnv (Watch.init [lossRule, accRule 0]) ["loss=0.05", "acc=0.5"]
          = some (w1, rs) ∧
        w1.stopRules.Subperm (Watch.init [lossRule, accRule 0]).stopRules ∧
        w1.stopRules.length + ((rs.map LineResult.evals).flatten.filter Eval.reached).length
          = (Watch.init [lossRule, accRule 0]).stopRules.length) ∧
      (∀ (rules : List EarlyStoppingRule) (idx : Nat), idx < rules.length →
        ∃ out, deleteStopRule rules idx = some out ∧ out.length = rules.length - 1 ∧
          out.Perm (rules.eraseIdx idx)) ∧
      (∀ (rules : List EarlyStoppingRule) (idx : Nat), rules.length ≤ idx →
        deleteStopRule rules idx = none)) :=
  ⟨by decide, by decide,
    C6_rules_only_removed exEnv (Watch.init [lossRule, accRule 0]) ["loss=0.05", "acc=0.5"]⟩

/-- Claim C7 fails on the code: in the line `loss=abc` the value `abc` does not parse,
`ParseFloat` returns 0 with an error, and after the log message the loop goes on with
the value 0: the rule `loss < 0.1` is compared with 0, holds, is removed, and the
early-stop block is entered. -/
theorem C7_unparsed_value_is_used :
    kvFilter "loss=abc" = [["loss=abc", "loss", "abc"]] ∧
    exEnv.parseFloat "abc" = (.fin 0, true) ∧
    (lineIter exEnv (Watch.init [lossRule]) "loss=abc").map LineResult.view
      = some ([(lossRule, .fin 0)], [], true) := by
  decide

/-- Claim C8 fails on the code: when `mainProc.Children` returns no child the block logs
the error and the anomaly and then evaluates `childProc[0]`, which panics, before the
metrics are reported, the process is waited for or the trial status is set. With two
children the block goes through, terminating the first. -/
theorem C8_no_child_panics :
    earlyStopBlock ⟨false, false, [], true, false, false, false⟩
      = ([.log "Training container is early stopped", .setEarlyStopped, .createMarkFile,
          .writeMarkFile, .getChildren, .log "Get children proceses for main PID failed",
          .log "Multiple children processes are not supported"], true) ∧
    earlyStopBlock ⟨false, false, [41, 42], false, false, false, false⟩
      = ([.log "Training container is early stopped", .setEarlyStopped, .createMarkFile,
          .writeMarkFile, .getChildren, .log "Multiple children processes are not supported",
          .terminate 41, .reportMetrics, .waitMainProcess, .dialEarlyStopping,
          .setTrialStatus, .closeConn, .log "Trial status is successfully updated"],
        false) := by
  decide

/-- Claim C9 fails on the code: for the empty log, and for a log whose entries have no
time stamp, nothing is appended to `sqlQuery` and the last character cut off is the
blank after `VALUES`: the statement handed to the database has no row at all, and the
error of the database is returned. With two time-stamped entries around one without,
the statement has two groups and a comma between them. -/
theorem C9_no_row_statement :
    insertStatement exDb "trial" []
      = some ("INSERT INTO observation_logs (trial_name, time, metric_name, value) VALUES",
          []) ∧
    insertStatement exDb "trial" [⟨"", "loss", "0.5"⟩]
      = some ("INSERT INTO observation_logs (trial_name, time, metric_name, value) VALUES",
          []) ∧
    RegisterObservationLog exDb "trial" [] = some "Pepare SQL statement failed" ∧
    RegisterObservationLog exDb "trial" [⟨"", "loss", "0.5"⟩]
      = some "Pepare SQL statement failed" ∧
    insertStatement exDb "trial"
        [⟨"2021-01-01T00:00:00Z", "loss", "0.5"⟩, ⟨"", "loss", "0.4"⟩,
          ⟨"2021-01-01T00:00:01Z", "acc", "0.7"⟩]
      = some ("INSERT INTO observation_logs (trial_name, time, metric_name, value) VALUES " ++
            "(?, ?, ?, ?),(?, ?, ?, ?)",
          ["trial", "2021-01-01T00:00:00Z", "loss", "0.5",
            "trial", "2021-01-01T00:00:01Z", "acc", "0.7"]) ∧
    RegisterObservationLog exDb "trial"
        [⟨"2021-01-01T00:00:00Z", "loss", "0.5"⟩, ⟨"", "loss", "0.4"⟩,
          ⟨"2021-01-01T00:00:01Z", "acc", "0.7"⟩] = none := by
  decide

/-! ## Lines as sequences of observations -/

lemma observeAll_cons (env : Env) (o : String × F64) (rest : List (String × F64)) (w : Watch) :
    observeAll env w (o :: rest)
      = match observe env w o.1 o.2 with
        | none => none
        | some (w1, evs) =>
          match observeAll env w1 rest with
          | none => none
          | some (w2, evss) => some (w2, evs :: evss) := rfl

lemma observeAll_append (env : Env) :
    ∀ (a b : List (String × F64)) (w : Watch),
      observeAll env w (a ++ b)
        = match observeAll env w a with
          | none => none
          | some (w1, e1) =>
            match observeAll env w1 b with
            | none => none
            | some (w2, e2) => some (w2, e1 ++ e2) := by
  intro a
  induction a with
  | nil =>
    intro b w
    simp only [List.nil_append, observeAll]
    cases observeAll env w b with
    | none => rfl
    | some p => simp
  | cons o rest ih =>
    intro b w
    rw [List.cons_append, observeAll_cons, observeAll_cons]
    cases observe env w o.1 o.2 with
    | none => rfl
    | some p =>
      obtain ⟨w1, evs⟩ := p
      simp only []
      rw [ih b w1]
      cases observeAll env w1 rest with
      | none => rfl
      | some q =>
        obtain ⟨w2, e2⟩ := q
        simp only []
        cases observeAll env w2 b with
        | none => rfl
        | some r => simp

lemma matchesLoop_observations (env : Env) :
    ∀ (subs : List (List String)) (w : Watch),
      matchesLoop env w subs
        = (observeAll env w (subs.filterMap (matchObs env))).map
            (fun p => (p.1, p.2.flatten)) := by
  intro subs
  induction subs with
  | nil => intro w; rfl
  | cons sub rest ih =>
    intro w
    by_cases h : sub.length < 3
    · have hm : matchObs env sub = none := by simp [matchObs, h]
      have hi : matchIter env w sub = some (w, []) := by simp [matchIter, h]
      rw [List.filterMap_cons_none hm, ← ih]
      simp only [matchesLoop, hi]
      cases matchesLoop env w rest with
      | none => rfl
      | some p => simp
    · have hm : matchObs env sub = some (trimSpace (sub.getD 1 ""),
          (env.parseFloat (trimSpace (sub.getD 2 ""))).1) := by simp [matchObs, h]
      have hi : matchIter env w sub = observe env w (trimSpace (sub.getD 1 ""))
          (env.parseFloat (trimSpace (sub.getD 2 ""))).1 := by simp [matchIter, h]
      rw [List.filterMap_cons_some hm]
      simp only [matchesLoop, observeAll, hi]
      cases observe env w (trimSpace (sub.getD 1 "")) (env.parseFloat (trimSpace (sub.getD 2 ""))).1 with
      | none => rfl
      | some p =>
        obtain ⟨w1, evs⟩ := p
        simp only [ih]
        cases observeAll env w1 (rest.filterMap (matchObs env)) with
        | none => rfl
        | some q => simp

lemma regsLoop_observations (env : Env) (logText : String) :
    ∀ (regs : List (String → List (List String))) (w : Watch),
      regsLoop env logText w regs
        = (observeAll env w
            (regs.map (fun metricReg => (metricReg logText).filterMap (matchObs env))).flatten).map
            (fun p => (p.1, p.2.flatten)) := by
  intro regs
  induction regs with
  | nil => intro w; rfl
  | cons reg rest ih =>
    intro w
    simp only [regsLoop, List.map_cons, List.flatten_cons, observeAll_append,
      matchesLoop_observations]
    cases observeAll env w ((reg logText).filterMap (matchObs env)) with
    | none => rfl
    | some p =>
      obtain ⟨w1, e1⟩ := p
      simp only [Option.map_some', ih]
      cases observeAll env w1
          (rest.map (fun metricReg => (metricReg logText).filterMap (matchObs env))).flatten with
      | none => rfl
      | some q => simp

/-- Processing a line is running the range loop on the observations of the line, one
after the other, and then testing whether a rule is left. -/
lemma lineIter_observations (env : Env) (w : Watch) (logText : String) :
    lineIter env w logText
      = (observeAll env w (lineObs env w logText)).map
          (fun p => ⟨p.1, p.2.flatten,
            isRuleLine w.stopRules logText && decide (p.1.stopRules.length = 0)⟩) := by
  unfold lineIter lineObs
  by_cases h : isRuleLine w.stopRules logText = true
  · simp only [h, not_true_eq_false, if_false, if_true, regsLoop_observations, Bool.true_and]
    cases observeAll env w
        (env.metricRegList.map
          (fun metricReg => (metricReg logText).filterMap (matchObs env))).flatten with
    | none => rfl
    | some p => rfl
  · simp only [h, not_false_eq_true, if_true, if_false, observeAll, Option.map_some',
      List.flatten_nil]
    simp at h
    simp [h]

/-- Two interleavings in which `reportMetrics` is called once: the watcher reads a line
that leaves the rule, and `main` reports after `common.WaitMainProcesses`; the watcher
runs the whole early-stop block before `common.WaitMainProcesses` returns, and `main`
finds the flag set. -/
theorem report_once_in_order :
    ((Sys.run exEnv oneChild (Sys.init [lossRule] ["loss=0.5"])
        ([.watcher] ++ List.replicate 4 .main)).map
      (fun s => (s.reports, s.isEarlyStopped, s.exited)))
      = some (1, false, true) ∧
    ((Sys.run exEnv oneChild (Sys.init [lossRule] ["loss=0.05"])
        (List.replicate 13 .watcher ++ List.replicate 3 .main)).map
      (fun s => (s.reports, s.isEarlyStopped, s.todo, s.exited)))
      = some (1, true, [], true) := by
  decide

/-- Claim C11 fails on the code: `isEarlyStopped` is a plain variable, tested by `main`
and set by the watcher without any lock. In the first interleaving
`common.WaitMainProcesses` returns and `main` reads the flag as `false`, then the line
`loss=0.05` empties the rule set and the watcher sets the flag, terminates the child
and reports, then `main` reports as well: two calls of `reportMetrics`. In the second
the watcher sets the flag, `main` reads it as `true`, skips its report and returns,
which ends the process before the watcher has reported: no call at all, and the
watcher cannot move any more. -/
theorem C11_report_twice_or_never :
    ((Sys.run exEnv oneChild (Sys.init [lossRule] ["loss=0.05"])
        ([.main, .main] ++ List.replicate 8 .watcher ++ [.main, .main])).map
      (fun s => (s.reports, s.isEarlyStopped, s.watch.stopRules, s.mainPc, s.exited)))
      = some (2, true, [], .ret, true) ∧
    ((Sys.run exEnv oneChild (Sys.init [lossRule] ["loss=0.05"])
        ([.main, .main] ++ List.replicate 8 .watcher)).map
      (fun s => (s.reports, s.todo.head?)))
      = some (1, some .waitMainProcess) ∧
    ((Sys.run exEnv oneChild (Sys.init [lossRule] ["loss=0.05"])
        (List.replicate 3 .watcher ++ [.main, .main, .main])).map
      (fun s => (s.reports, s.isEarlyStopped, s.todo.head?, s.mainPc, s.exited)))
      = some (0, true, some .createMarkFile, .ret, true) ∧
    ((Sys.run exEnv oneChild (Sys.init [lossRule] ["loss=0.05"])
        (List.replicate 3 .watcher ++ [.main, .main, .main, .watcher])).map
      (fun s => s.reports))
      = none := by
  decide

end Katib
